import Mathlib

/-!
Shallow embedding of the optimistic synchronization engine of the BulletP
outline editor (frontend/src/store.ts), together with proofs of the spec
claims about it.  State maps (`Record<string, T>`) are embedded as
`String → Option T`; deleting a key stores `none`.  Asynchronous flows are
split at their `await` points into pure "entry" and "response-handler"
functions; the dispatched network calls are returned explicitly as a list
of `RemoteOp` values.
-/

/-- `UiNode` from store.ts: optional TS fields become `Option`. -/
structure UiNode where
  id : String
  parentId : Option String
  content : String
  orderIndex : Nat
  children : List String
  hasChildren : Option Bool
  isCollapsed : Option Bool
  serverId : Option String
deriving Repr, DecidableEq

/-- `ApiNode` from api.ts, with the optional reads store.ts performs on it. -/
structure ApiNode where
  id : String
  parent_id : Option String
  text : Option String
  order_index : Option Nat
  has_children : Option Bool
deriving Repr, DecidableEq

/-- Pending-create record (store.ts `pendingCreate` values). -/
structure PendingCreate where
  parentId : String
  canceled : Bool
  createdRealId : Option String
deriving Repr, DecidableEq

/-- Queued structural operation (store.ts `PendingOp`). -/
structure PendingOp where
  indentOp : Option (String × String)
  outdentOp : Option (String × String)
deriving Repr, DecidableEq

/-- The store state (data fields of the zustand store in store.ts). -/
structure Store where
  sessionNonce : Nat
  nodes : String → Option UiNode
  rootId : String
  homeId : Option String
  focusedId : Option String
  sidebarVersion : Nat
  caretToEndId : Option String
  pendingText : String → Option String
  pendingTextRev : String → Option Nat
  idRedirect : String → Option String
  realToTemp : String → Option String
  pendingCreate : String → Option PendingCreate
  pendingOps : String → Option PendingOp
  tombstoneReal : String → Option Nat

/-- A remote call dispatched by the engine. -/
inductive RemoteOp where
  | deleteNode (id : String)
  | patchNode (id : String) (text : String)
  | indentNode (id : String)
  | outdentNode (id : String)
  | refetchChildren (parentId : String)
deriving Repr, DecidableEq

/-- Outcome of an awaited network call. -/
inductive FetchOutcome (α : Type) where
  | ok (v : α)
  | http404
  | err
deriving Repr

/-- Point update of a string-keyed map. -/
def upd {α : Type} (m : String → Option α) (k : String) (v : Option α) :
    String → Option α :=
  fun k' => if k' = k then v else m k'

@[simp] theorem upd_same {α : Type} (m : String → Option α) (k : String)
    (v : Option α) : upd m k v k = v := by
  simp [upd]

theorem upd_other {α : Type} (m : String → Option α) (k k' : String)
    (v : Option α) (h : k' ≠ k) : upd m k v k' = m k' := by
  simp [upd, h]

/-- JS truthiness of an optional string (`undefined`/`null`/`""` are falsy). -/
def optTruthy : Option String → Bool
  | none => false
  | some s => s ≠ ""

/-- store.ts `isTempId` (`id.startsWith("tmp_")`), written on the
character list so that it evaluates by kernel reduction. -/
def isTempId (id : String) : Bool :=
  id.data.take 4 == "tmp_".data

/-- store.ts `normalizeHasChildren`. -/
def normalizeHasChildren (n : ApiNode) (existing : Option UiNode) :
    Option Bool :=
  match n.has_children with
  | some b => some b
  | none => existing.bind (·.hasChildren)

/-- store.ts `upsertFromApiToUiId`: write an API row to a given ui id,
`pendingText` taking precedence over the server text. -/
def upsertFromApiToUiId (s : Store) (uiId : String) (n : ApiNode) : UiNode :=
  let existing := s.nodes uiId
  let pending := s.pendingText uiId
  let hasChildrenHint := normalizeHasChildren n existing
  let shouldDefaultCollapsed : Bool :=
    hasChildrenHint = some true &&
      ((existing.map (·.children.length)).getD 0 = 0)
  { id := uiId
    parentId := n.parent_id
    content :=
      match pending with
      | some p => p
      | none =>
        match n.text with
        | some t => t
        | none => (existing.map (·.content)).getD ""
    orderIndex :=
      match n.order_index with
      | some o => o
      | none => (existing.map (·.orderIndex)).getD 0
    children := (existing.map (·.children)).getD []
    hasChildren := hasChildrenHint
    isCollapsed :=
      match existing.bind (·.isCollapsed) with
      | some b => some b
      | none => some shouldDefaultCollapsed
    serverId := existing.bind (·.serverId) }

/-- store.ts `mergeTextOnly`: a PATCH text response only changes `content`,
never parent/order/children. -/
def mergeTextOnly (existing : Option UiNode) (updated : ApiNode) : UiNode :=
  match existing with
  | none =>
    { id := updated.id
      parentId := updated.parent_id
      content := updated.text.getD ""
      orderIndex := updated.order_index.getD 0
      children := []
      hasChildren := some (updated.has_children.getD false)
      isCollapsed := some false
      serverId := none }
  | some e => { e with content := updated.text.getD e.content }

/-- store.ts `normalizeHtmlEmpty` (strip zero-width spaces, trim, compare
against `""`/`"<br>"`), written on the character list so that it evaluates
by kernel reduction. -/
def normalizeHtmlEmpty (html : String) : Bool :=
  let t := (((html.data.filter (fun c => c ≠ '\u200B')).dropWhile
      (·.isWhitespace)).reverse.dropWhile (·.isWhitespace)).reverse
  t == [] || t == "<br>".data

/-- store.ts `removeFromArray` (splice out the first occurrence found by
`indexOf`, else return a copy). -/
def removeFromArray (arr : List String) (id : String) : List String :=
  match arr.findIdx? (· = id) with
  | none => arr
  | some idx => arr.take idx ++ arr.drop (idx + 1)

/-- store.ts `insertAfter` (insert right after the first occurrence of
`afterId`, else append at the end). -/
def insertAfter (arr : List String) (afterId newId : String) : List String :=
  match arr.findIdx? (· = afterId) with
  | none => arr ++ [newId]
  | some idx => arr.take (idx + 1) ++ newId :: arr.drop (idx + 1)

/-- The `for` loop of store.ts `recomputeOrderIndices`: assign index `i`
to the `i`-th child present in the map, skipping missing nodes. -/
def assignIdx : List String → Nat → (String → Option UiNode) →
    (String → Option UiNode)
  | [], _, m => m
  | cid :: rest, i, m =>
    let m' :=
      match m cid with
      | none => m
      | some cn => upd m cid (some { cn with orderIndex := i })
    assignIdx rest (i + 1) m'

/-- store.ts `recomputeOrderIndices`: returns the updated node map, or
`none` when the parent is absent (TS returns `undefined`). -/
def recomputeOrderIndices (s : Store) (parentId : String) :
    Option (String → Option UiNode) :=
  match s.nodes parentId with
  | none => none
  | some p =>
    let nn := assignIdx p.children 0 s.nodes
    some (upd nn parentId
      (some { p with hasChildren := some (decide (0 < p.children.length)) }))

/-- The `reordered ?? nextNodes` pattern at every call site of
`recomputeOrderIndices`. -/
def recomputeD (s : Store) (parentId : String) : String → Option UiNode :=
  (recomputeOrderIndices s parentId).getD s.nodes

/-- store.ts `resolveIdForApi`: prefer the node's `serverId`, then follow
`idRedirect` for at most 8 steps. -/
def resolveIdForApi (s : Store) (uiId : String) : String :=
  let cur :=
    match (s.nodes uiId).bind (·.serverId) with
    | some sid => sid
    | none => uiId
  (List.range 8).foldl
    (fun c _ =>
      match s.idRedirect c with
      | some nxt => nxt
      | none => c) cur

/-- The `stillPendingTemp` test inside store.ts
`mergeChildrenPreserveLocal`. -/
def stillPendingTemp (s : Store) (cid : String) : Bool :=
  isTempId cid &&
    (match s.pendingCreate cid with
     | some pc => !pc.canceled
     | none => false)

/-- The second loop of `mergeChildrenPreserveLocal`: append, in server
order, every server id not already present (the list grows as it is
scanned, so duplicates are appended once). -/
def appendNew (kept : List String) (sids : List String) : List String :=
  sids.foldl (fun acc sid => if acc.contains sid then acc else acc ++ [sid])
    kept

/-- store.ts `mergeChildrenPreserveLocal`. -/
def mergeChildrenPreserveLocal (s : Store) (uiParentId : String)
    (serverChildUiIds : List String) : List String :=
  let localCh :=
    ((s.nodes uiParentId).map (·.children)).getD []
      |>.filter (fun cid => (s.nodes cid).isSome)
  let kept := localCh.filter
    (fun cid => stillPendingTemp s cid || serverChildUiIds.contains cid)
  appendNew kept serverChildUiIds

/-- store.ts `isTombstoned`: a locally deleted real id is suppressed for
5 minutes. -/
def isTombstoned (s : Store) (now : Nat) (realId : String) : Bool :=
  match s.tombstoneReal realId with
  | none => false
  | some t => now - t < 5 * 60 * 1000

/-- store.ts `bumpSidebar`. -/
def bumpSidebar (s : Store) : Store :=
  { s with sidebarVersion := s.sidebarVersion + 1 }

/-- store.ts `hydrateNode`: write an API row at its ui id (through
`realToTemp`). -/
def hydrateNode (s : Store) (n : ApiNode) : Store :=
  let uiId := (s.realToTemp n.id).getD n.id
  { s with nodes := upd s.nodes uiId (some (upsertFromApiToUiId s uiId n)) }

/-- The dispatch decision of store.ts `serverIndentOnly` (the remote call
made before its await; the completion refetches are separate turns). -/
def serverIndentDispatch (s : Store) (uiId : String) : List RemoteOp :=
  let apiId := resolveIdForApi s uiId
  if isTempId apiId then [] else [RemoteOp.indentNode apiId]

/-- The dispatch decision of store.ts `serverOutdentOnly`. -/
def serverOutdentDispatch (s : Store) (uiId : String) : List RemoteOp :=
  let apiId := resolveIdForApi s uiId
  if isTempId apiId then [] else [RemoteOp.outdentNode apiId]

/-- The refetches `serverIndentOnly`/`serverOutdentOnly` run after their
await: gated by the session nonce on success, unconditional on error. -/
def serverStructuralAfter (nonce : Nat) (s : Store)
    (fromParentId toParentId : String) (r : FetchOutcome ApiNode) :
    List RemoteOp :=
  match r with
  | .ok _ =>
    if s.sessionNonce ≠ nonce then []
    else [RemoteOp.refetchChildren toParentId,
          RemoteOp.refetchChildren fromParentId]
  | _ => [RemoteOp.refetchChildren fromParentId,
          RemoteOp.refetchChildren toParentId]

/-- The synchronous part of store.ts `updateContent` (everything before its
await): local mutation, ledger write with incremented revision, sidebar
bump, and the patch dispatch decision.  Returns the captured `myRev`. -/
def updateContentLocal (s : Store) (id html : String) :
    Store × Nat × List RemoteOp :=
  if id = "" then (s, 0, [])
  else
    let sr : Store × Nat :=
      match s.nodes id with
      | none => (bumpSidebar s, 0)
      | some n =>
        let myRev := (s.pendingTextRev id).getD 0 + 1
        (bumpSidebar
          { s with
            nodes := upd s.nodes id (some { n with content := html })
            pendingText := upd s.pendingText id (some html)
            pendingTextRev := upd s.pendingTextRev id (some myRev) }, myRev)
    let s1 := sr.1
    let ops :=
      if isTempId id && !optTruthy ((s1.nodes id).bind (·.serverId)) then []
      else
        let apiId := resolveIdForApi s1 id
        if isTempId apiId then [] else [RemoteOp.patchNode apiId html]
    (s1, sr.2, ops)

/-- The response handler of store.ts `updateContent`: session-nonce check,
then the revision check — the confirmation is merged only when its
originating revision equals the current `pendingTextRev`. -/
def updateContentOnResponse (nonce : Nat) (s : Store) (id : String)
    (myRev : Nat) (updated : ApiNode) : Store :=
  if s.sessionNonce ≠ nonce then s
  else if (s.pendingTextRev id).getD 0 ≠ myRev then s
  else
    { s with
      pendingText := upd s.pendingText id none
      pendingTextRev := upd s.pendingTextRev id none
      nodes := upd s.nodes id (some (mergeTextOnly (s.nodes id) updated)) }

/-- The entry guards of store.ts `loadChildren` (before its await): resolve
the parent and capture the session nonce, or abandon (temp parent / empty
id). -/
def loadChildrenPlan (s0 : Store) (parentId : String) :
    Option (Nat × String × String) :=
  if parentId = "" then none
  else
    let apiParentId := resolveIdForApi s0 parentId
    if isTempId apiParentId then none
    else some (s0.sessionNonce, apiParentId,
      (s0.realToTemp apiParentId).getD parentId)

/-- One row of the merge loop in store.ts `loadChildren`: skip tombstoned
rows, map real ids to temp ui ids, upsert. -/
def loadChildrenRowStep (s : Store) (now : Nat)
    (acc : (String → Option UiNode) × List String) (r : ApiNode) :
    (String → Option UiNode) × List String :=
  if isTombstoned s now r.id then acc
  else
    let uiChildId := (s.realToTemp r.id).getD r.id
    let n0 := upsertFromApiToUiId s uiChildId r
    let n1 := if uiChildId ≠ r.id then { n0 with serverId := some r.id }
              else n0
    (upd acc.1 uiChildId (some n1), acc.2 ++ [uiChildId])

/-- The reconciliation-merge `set` block of store.ts `loadChildren`. -/
def loadChildrenMerge (s : Store) (uiParentId : String) (rows : List ApiNode)
    (now : Nat) : Store :=
  let fr := rows.foldl (loadChildrenRowStep s now) (s.nodes, [])
  let next := fr.1
  let serverChildUiIds := fr.2
  let existingParent := next uiParentId
  let merged :=
    mergeChildrenPreserveLocal { s with nodes := next } uiParentId
      serverChildUiIds
  let parentNode : UiNode :=
    { id := uiParentId
      parentId := existingParent.bind (·.parentId)
      content := (existingParent.map (·.content)).getD ""
      orderIndex := (existingParent.map (·.orderIndex)).getD 0
      children := merged
      hasChildren := some (decide (0 < merged.length))
      isCollapsed := some ((existingParent.bind (·.isCollapsed)).getD false)
      serverId := existingParent.bind (·.serverId) }
  let next2 := upd next uiParentId (some parentNode)
  { s with nodes := recomputeD { s with nodes := next2 } uiParentId }

/-- The continuation of store.ts `loadChildren` after its await.  The
success path re-checks the captured nonce; the 404 handler mutates state
(root reset, node removal) and the error handler bumps the sidebar with no
nonce re-check. -/
def loadChildrenAfterFetch (nonce : Nat) (uiParentId : String) (s : Store)
    (r : FetchOutcome (List ApiNode)) (now : Nat) : Store :=
  match r with
  | .ok rows =>
    if s.sessionNonce ≠ nonce then s
    else bumpSidebar (loadChildrenMerge s uiParentId rows now)
  | .http404 =>
    let s1 :=
      if s.rootId = uiParentId && optTruthy s.homeId then
        { s with rootId := s.homeId.getD s.rootId }
      else s
    bumpSidebar { s1 with nodes := upd s1.nodes uiParentId none }
  | .err => bumpSidebar s

/-- The entry guards of store.ts `ensureNodeLoaded` before its await. -/
def ensureNodeLoadedPlan (s0 : Store) (id : String) :
    Option (Nat × String × String) :=
  if id = "" then none
  else
    let apiId := resolveIdForApi s0 id
    if isTempId apiId then none
    else
      let uiId := (s0.realToTemp apiId).getD id
      if (s0.nodes uiId).isSome then none
      else some (s0.sessionNonce, apiId, uiId)

/-- The continuation of store.ts `ensureNodeLoaded` after its await: the
success path is nonce-gated; the 404 handler deletes the node with no
nonce re-check. -/
def ensureNodeLoadedAfterFetch (nonce : Nat) (uiId : String) (s : Store)
    (r : FetchOutcome ApiNode) : Store :=
  match r with
  | .ok n => if s.sessionNonce ≠ nonce then s else hydrateNode s n
  | .http404 => { s with nodes := upd s.nodes uiId none }
  | .err => s

/-- The synchronous part of store.ts `appendChild`: insert a freshly minted
provisional node at the end of the parent's children, record the
pending-create entry, focus it. -/
def appendChildLocal (s : Store) (parentId tempId : String) : Store :=
  match s.nodes parentId with
  | none => s
  | some parent =>
    let newNode : UiNode :=
      { id := tempId, parentId := some parentId, content := ""
        orderIndex := parent.children.length, children := []
        hasChildren := some false, isCollapsed := some false
        serverId := none }
    let nn := upd s.nodes tempId (some newNode)
    let nn2 := upd nn parentId
      (some { parent with children := parent.children ++ [tempId],
                          hasChildren := some true,
                          isCollapsed := some false })
    bumpSidebar
      { s with
        nodes := recomputeD { s with nodes := nn2 } parentId
        pendingCreate := upd s.pendingCreate tempId
          (some { parentId := parentId, canceled := false
                  createdRealId := none })
        focusedId := some tempId
        caretToEndId := some tempId }

/-- The synchronous part of store.ts `createAfter`: like `appendChild` but
inserts right after the given sibling. -/
def createAfterLocal (s : Store) (id tempId : String) : Store :=
  match s.nodes id with
  | none => s
  | some cur =>
    let parentId? :=
      match cur.parentId with
      | some p => some p
      | none => s.homeId
    match parentId? with
    | none => s
    | some parentId =>
      if parentId = "" then s
      else
        match s.nodes parentId with
        | none => s
        | some parent =>
          let newNode : UiNode :=
            { id := tempId, parentId := some parentId, content := ""
              orderIndex := 0, children := []
              hasChildren := some false, isCollapsed := some false
              serverId := none }
          let nn := upd s.nodes tempId (some newNode)
          let nn2 := upd nn parentId
            (some { parent with children := insertAfter parent.children id tempId,
                                hasChildren := some true,
                                isCollapsed := some false })
          bumpSidebar
            { s with
              nodes := recomputeD { s with nodes := nn2 } parentId
              pendingCreate := upd s.pendingCreate tempId
                (some { parentId := parentId, canceled := false
                        createdRealId := none })
              focusedId := some tempId
              caretToEndId := some tempId }

/-- The "flush pendingOps" step of the create continuation: delete the
queue entry and dispatch the queued indent (preferred) or outdent once. -/
def drainPendingOps (s : Store) (tempId : String) : Store × List RemoteOp :=
  let s' := { s with pendingOps := upd s.pendingOps tempId none }
  match s.pendingOps tempId with
  | some op =>
    match op.indentOp with
    | some _ => (s', serverIndentDispatch s' tempId)
    | none =>
      match op.outdentOp with
      | some _ => (s', serverOutdentDispatch s' tempId)
      | none => (s', [])
  | none => (s', [])

/-- The continuation of store.ts `appendChild`/`createAfter` after the
`createNode` response arrives: nonce check; if the pending-create record
was canceled (or the temp node is gone), tombstone the fresh remote id and
issue a compensating delete; otherwise bind, flush the latest pending
text (`patchOk` tells whether that patch succeeded), drain the structural
queue, refetch the parent and clear the pending-create record. -/
def appendChildAfterCreate (s : Store) (nonce : Nat)
    (tempId parentId createdId : String) (now : Nat) (patchOk : Bool) :
    Store × List RemoteOp :=
  if s.sessionNonce ≠ nonce then (s, [])
  else
    let canceled := ((s.pendingCreate tempId).map (·.canceled)).getD false
    if canceled || (s.nodes tempId).isNone then
      let s1 := { s with
        tombstoneReal := upd s.tombstoneReal createdId (some now) }
      let s2 := { s1 with
        pendingCreate := upd s1.pendingCreate tempId none }
      (s2, [RemoteOp.deleteNode createdId,
            RemoteOp.refetchChildren parentId])
    else
      let s1 :=
        match s.nodes tempId with
        | none => s
        | some tmp =>
          bumpSidebar
            { s with
              nodes := upd s.nodes tempId
                (some { tmp with serverId := some createdId })
              idRedirect := upd s.idRedirect tempId (some createdId)
              realToTemp := upd s.realToTemp createdId (some tempId)
              pendingCreate := upd s.pendingCreate tempId
                (some { parentId := parentId, canceled := false
                        createdRealId := some createdId }) }
      let latestHtml :=
        (s1.pendingText tempId).getD
          (((s1.nodes tempId).map (·.content)).getD "")
      let s2 :=
        if patchOk then
          { s1 with pendingText := upd s1.pendingText tempId none,
                    pendingTextRev := upd s1.pendingTextRev tempId none }
        else s1
      let dr := drainPendingOps s2 tempId
      let s4 := { dr.1 with
        pendingCreate := upd dr.1.pendingCreate tempId none }
      (s4, RemoteOp.patchNode createdId latestHtml :: dr.2 ++
           [RemoteOp.refetchChildren parentId])

/-- store.ts `deleteIfEmpty`: guarded removal of an empty node, with
cancel-flagging for temps, tombstoning for bound nodes, focus fallback and
the remote delete dispatch. -/
def deleteIfEmpty (s : Store) (id : String) (now : Nat) :
    Store × List RemoteOp :=
  match s.nodes id with
  | none => (s, [])
  | some node =>
    match node.parentId with
    | none => (s, [])
    | some parentId =>
      if parentId = "" then (s, [])
      else
        match s.nodes parentId with
        | none => (s, [])
        | some parent =>
          if !normalizeHtmlEmpty node.content then (s, [])
          else
            let fallbackFocus :=
              match parent.children.findIdx? (· = id) with
              | some idx =>
                if 0 < idx then
                  (parent.children.get? (idx - 1)).getD parentId
                else (parent.children.get? (idx + 1)).getD parentId
              | none => (parent.children.get? 0).getD parentId
            let realId := resolveIdForApi s id
            let isReal := !isTempId realId
            let s1 :=
              if isTempId id then
                match s.pendingCreate id with
                | none => s
                | some pc =>
                  { s with
                    pendingCreate :=
                      upd s.pendingCreate id
                        (some { pc with canceled := true }) }
              else s
            let s2 :=
              if isReal then
                { s1 with
                  tombstoneReal := upd s1.tombstoneReal realId (some now) }
              else s1
            let nn := upd s2.nodes id none
            let pending' := upd s2.pendingText id none
            let rev' := upd s2.pendingTextRev id none
            let realToTemp' :=
              match (s2.nodes id).bind (·.serverId) with
              | some r => upd s2.realToTemp r none
              | none => s2.realToTemp
            let nn2 := upd nn parentId
              (some { parent with
                        children := removeFromArray parent.children id,
                        hasChildren :=
                          some (decide (0 < parent.children.length - 1)) })
            let s3 := bumpSidebar
              { s2 with
                nodes := recomputeD { s2 with nodes := nn2 } parentId,
                pendingText := pending',
                pendingTextRev := rev',
                realToTemp := realToTemp',
                focusedId := some fallbackFocus,
                caretToEndId := some fallbackFocus }
            (s3, if isReal then
                   [RemoteOp.deleteNode realId,
                    RemoteOp.refetchChildren parentId]
                 else [RemoteOp.refetchChildren parentId])

/-- store.ts `indent`: move the node under its previous sibling locally,
then queue the structural change if the node is unbound, else dispatch it. -/
def indent (s : Store) (id : String) : Store × List RemoteOp :=
  match s.nodes id with
  | none => (s, [])
  | some node =>
    match node.parentId with
    | none => (s, [])
    | some oldParentId =>
      if oldParentId = "" then (s, [])
      else
        match s.nodes oldParentId with
        | none => (s, [])
        | some oldParent =>
          match oldParent.children.findIdx? (· = id) with
          | none => (s, [])
          | some idx =>
            if idx = 0 then (s, [])
            else
              match oldParent.children.get? (idx - 1) with
              | none => (s, [])
              | some newParentId =>
                match s.nodes newParentId with
                | none => (s, [])
                | some newParent =>
                  let nn := upd s.nodes oldParentId
                    (some { oldParent with
                              children := removeFromArray oldParent.children id,
                              hasChildren :=
                                some (decide (0 < oldParent.children.length - 1)) })
                  let nn2 := upd nn newParentId
                    (some { newParent with
                              children := newParent.children ++ [id],
                              hasChildren := some true,
                              isCollapsed := some false })
                  let nn3 := upd nn2 id
                    (some { node with parentId := some newParentId })
                  let nodesA := recomputeD { s with nodes := nn3 } oldParentId
                  let nodesB := recomputeD { s with nodes := nodesA } newParentId
                  let s1 := bumpSidebar
                    { s with nodes := nodesB, focusedId := some id }
                  if isTempId id &&
                      !optTruthy ((s1.nodes id).bind (·.serverId)) then
                    ({ s1 with
                        pendingOps := upd s1.pendingOps id
                          (some { indentOp := some (oldParentId, newParentId),
                                  outdentOp := (s1.pendingOps id).bind (·.outdentOp) }) },
                     [])
                  else
                    let apiId := resolveIdForApi s1 id
                    if isTempId apiId then (s1, [])
                    else (s1, serverIndentDispatch s1 id)

/-- store.ts `outdent`: move the node after its parent under the
grandparent locally, then queue or dispatch. -/
def outdent (s : Store) (id : String) : Store × List RemoteOp :=
  match s.nodes id with
  | none => (s, [])
  | some node =>
    match node.parentId with
    | none => (s, [])
    | some parentId =>
      if parentId = "" then (s, [])
      else
        match s.nodes parentId with
        | none => (s, [])
        | some parent =>
          match parent.parentId with
          | none => (s, [])
          | some grandParentId =>
            if grandParentId = "" then (s, [])
            else
              match s.nodes grandParentId with
              | none => (s, [])
              | some grand =>
                let nn := upd s.nodes parentId
                  (some { parent with
                            children := removeFromArray parent.children id,
                            hasChildren :=
                              some (decide (0 < parent.children.length - 1)) })
                let nn2 := upd nn grandParentId
                  (some { grand with
                            children := insertAfter grand.children parentId id,
                            hasChildren := some true,
                            isCollapsed := some false })
                let nn3 := upd nn2 id
                  (some { node with parentId := some grandParentId })
                let nodesA := recomputeD { s with nodes := nn3 } parentId
                let nodesB := recomputeD { s with nodes := nodesA } grandParentId
                let s1 := bumpSidebar
                  { s with nodes := nodesB, focusedId := some id }
                if isTempId id &&
                    !optTruthy ((s1.nodes id).bind (·.serverId)) then
                  ({ s1 with
                      pendingOps := upd s1.pendingOps id
                        (some { indentOp := (s1.pendingOps id).bind (·.indentOp),
                                outdentOp := some (parentId, grandParentId) }) },
                   [])
                else
                  let apiId := resolveIdForApi s1 id
                  if isTempId apiId then (s1, [])
                  else (s1, serverOutdentDispatch s1 id)

/-- The initial store state (the data fields of the zustand store at
construction). -/
def emptyStore : Store :=
  { sessionNonce := 0
    nodes := fun _ => none
    rootId := ""
    homeId := none
    focusedId := none
    sidebarVersion := 0
    caretToEndId := none
    pendingText := fun _ => none
    pendingTextRev := fun _ => none
    idRedirect := fun _ => none
    realToTemp := fun _ => none
    pendingCreate := fun _ => none
    pendingOps := fun _ => none
    tombstoneReal := fun _ => none }

/-- A concrete node constructor used by the concrete test states below. -/
def mkNode (id : String) (pid : Option String) (c : String)
    (ch : List String) (sid : Option String) : UiNode :=
  { id := id, parentId := pid, content := c, orderIndex := 0, children := ch
    hasChildren := some (decide (ch ≠ [])), isCollapsed := some false
    serverId := sid }

/-- Concrete state: parent `"P"` with provisional child `"tmp_A"` (active
pending-create) and bound children `"B"`, plus a loose `"C"`. -/
def sPAB : Store :=
  { emptyStore with
    nodes :=
      upd (upd (upd (upd emptyStore.nodes
        "P" (some (mkNode "P" none "" ["tmp_A", "B"] none)))
        "tmp_A" (some (mkNode "tmp_A" (some "P") "a" [] none)))
        "B" (some (mkNode "B" (some "P") "b" [] none)))
        "C" (some (mkNode "C" (some "P") "c" [] none)),
    pendingCreate := upd emptyStore.pendingCreate "tmp_A"
      (some { parentId := "P", canceled := false, createdRealId := none }) }

/-- C10: when a text-patch confirmation is applied to an existing node, only
that node's `content` changes — id, parentId, orderIndex, children, collapse
state and bound server id are untouched, and no other node is modified. -/
theorem updateContent_confirm_text_frame (nonce : Nat) (s : Store)
    (id : String) (myRev : Nat) (u : ApiNode) (e : UiNode)
    (hs : s.sessionNonce = nonce)
    (he : s.nodes id = some e)
    (hr : (s.pendingTextRev id).getD 0 = myRev) :
    (updateContentOnResponse nonce s id myRev u).nodes id =
      some { e with content := u.text.getD e.content } ∧
    ∀ x, x ≠ id → (updateContentOnResponse nonce s id myRev u).nodes x =
      s.nodes x := by
  constructor
  · simp [updateContentOnResponse, hs, hr, he, mergeTextOnly]
  · intro x hx
    simp [updateContentOnResponse, hs, hr, he, upd_other _ _ _ _ hx]

/-- C10 witness: the frame property evaluated at a concrete state. -/
theorem updateContent_confirm_text_frame_witness :
    (updateContentOnResponse 0 sPAB "B" 0 ⟨"B", none, some "hi", none, none⟩).nodes "B" =
      some { mkNode "B" (some "P") "b" [] none with content := "hi" } ∧
    (updateContentOnResponse 0 sPAB "B" 0 ⟨"B", none, some "hi", none, none⟩).nodes "P" =
      sPAB.nodes "P" := by
  have h := updateContent_confirm_text_frame 0 sPAB "B" 0
    ⟨"B", none, some "hi", none, none⟩ (mkNode "B" (some "P") "b" [] none)
    (by decide) (by decide) (by decide)
  exact ⟨h.1, h.2 "P" (by decide)⟩

/-- Concrete state for the C9 counterexample: one bound node `"a"`. -/
def sA : Store :=
  { emptyStore with
    nodes := upd emptyStore.nodes "a" (some (mkNode "a" none "hi" [] none)) }

/-- C9 counterexample: `updateContent` does bump `sidebarVersion`
(store.ts line 643 calls `bumpSidebar()` on every call), so the version
signal is not decoupled from text mutations. -/
theorem updateContent_bumps_sidebar_cex :
    ((updateContentLocal sA "a" "x").1).sidebarVersion ≠
      sA.sidebarVersion := by
  decide

/-- C9 amended: `sidebarVersion` rises by exactly one on every
`bumpSidebar`, but `updateContent` also bumps it once per call — text
mutations are not excluded from the version signal. -/
theorem sidebar_version_amended :
    (∀ s : Store, (bumpSidebar s).sidebarVersion = s.sidebarVersion + 1) ∧
    (∀ (s : Store) (id html : String), id ≠ "" →
      ((updateContentLocal s id html).1).sidebarVersion =
        s.sidebarVersion + 1) := by
  refine ⟨fun s => rfl, fun s id html hid => ?_⟩
  cases hn : s.nodes id <;>
    simp [updateContentLocal, hid, hn, bumpSidebar]

/-- C9 amended witness. -/
theorem sidebar_version_amended_witness :
    ((updateContentLocal sA "a" "x").1).sidebarVersion =
      sA.sidebarVersion + 1 := by
  exact sidebar_version_amended.2 sA "a" "x" (by decide)

/-- Concrete state for the C5 counterexample: the live session (nonce 1)
contains node `"p"`; a stale `loadChildren` that started under nonce 0
comes back 404. -/
def sC5 : Store :=
  { emptyStore with
    sessionNonce := 1
    nodes := upd emptyStore.nodes "p" (some (mkNode "p" none "hi" [] none)) }

/-- C5 counterexample: the 404 handler of `loadChildren` runs with no
session-nonce re-check, so a response from a previous session (captured
nonce 0 ≠ live nonce 1) still deletes node `"p"` from the live state. -/
theorem loadChildren_stale_http404_mutates_cex :
    sC5.sessionNonce ≠ 0 ∧ (sC5.nodes "p").isSome = true ∧
    (loadChildrenAfterFetch 0 "p" sC5 FetchOutcome.http404 0).nodes "p" =
      none := by
  refine ⟨by decide, by decide, ?_⟩
  simp [loadChildrenAfterFetch, sC5, emptyStore, optTruthy, bumpSidebar]

/-- C5 amended: every success path re-checks the captured session nonce
after its await and abandons without mutation on mismatch; the 404/error
handlers, however, run unguarded (see the counterexample). -/
theorem session_nonce_guards_success_paths :
    (∀ (nonce : Nat) (p : String) (s : Store) (rows : List ApiNode)
        (now : Nat), s.sessionNonce ≠ nonce →
      loadChildrenAfterFetch nonce p s (.ok rows) now = s) ∧
    (∀ (nonce : Nat) (s : Store) (id : String) (rev : Nat) (u : ApiNode),
      s.sessionNonce ≠ nonce → updateContentOnResponse nonce s id rev u = s) ∧
    (∀ (nonce : Nat) (uiId : String) (s : Store) (n : ApiNode),
      s.sessionNonce ≠ nonce →
      ensureNodeLoadedAfterFetch nonce uiId s (.ok n) = s) ∧
    (∀ (s : Store) (nonce : Nat) (tempId parentId createdId : String)
        (now : Nat) (patchOk : Bool), s.sessionNonce ≠ nonce →
      appendChildAfterCreate s nonce tempId parentId createdId now patchOk =
        (s, [])) ∧
    (∀ (nonce : Nat) (s : Store) (f t : String) (n : ApiNode),
      s.sessionNonce ≠ nonce →
      serverStructuralAfter nonce s f t (.ok n) = []) := by
  refine ⟨?_, ?_, ?_, ?_, ?_⟩
  · intro nonce p s rows now h
    simp [loadChildrenAfterFetch, h]
  · intro nonce s id rev u h
    simp [updateContentOnResponse, h]
  · intro nonce uiId s n h
    simp [ensureNodeLoadedAfterFetch, h]
  · intro s nonce tempId parentId createdId now patchOk h
    simp [appendChildAfterCreate, h]
  · intro nonce s f t n h
    simp [serverStructuralAfter, h]

/-- C5 amended witness: a stale success response (nonce 0 against live
nonce 1) leaves the state untouched. -/
theorem session_nonce_guards_success_paths_witness :
    loadChildrenAfterFetch 0 "p" sC5
      (.ok [⟨"x", some "p", some "t", some 0, none⟩]) 0 = sC5 ∧
    updateContentOnResponse 0 sC5 "p" 1 ⟨"p", none, some "t", none, none⟩ =
      sC5 := by
  exact ⟨session_nonce_guards_success_paths.1 0 "p" sC5 _ 0 (by decide),
    session_nonce_guards_success_paths.2.1 0 sC5 "p" 1 _ (by decide)⟩

/-- Helper: a tombstoned row is a no-op in the reconciliation merge. -/
theorem loadChildrenMerge_skips_tombstoned (s : Store) (p : String)
    (now : Nat) (l1 : List ApiNode) (r : ApiNode) (l2 : List ApiNode)
    (h : isTombstoned s now r.id = true) :
    loadChildrenMerge s p (l1 ++ r :: l2) now =
      loadChildrenMerge s p (l1 ++ l2) now := by
  have hstep : ∀ acc, loadChildrenRowStep s now acc r = acc := by
    intro acc
    simp [loadChildrenRowStep, h]
  simp [loadChildrenMerge, List.foldl_append, List.foldl_cons, hstep]

/-- Concrete state for the C4 counterexample: remote id `"r"` was
tombstoned at time 0 and its node was removed locally. -/
def sC4 : Store :=
  { emptyStore with
    tombstoneReal := upd emptyStore.tombstoneReal "r" (some 0) }

/-- A server row for the tombstoned id `"r"`. -/
def rowR : ApiNode := ⟨"r", some "p", some "hello", some 0, some false⟩

/-- C4 counterexample: `"r"` is tombstoned and unexpired, yet
`ensureNodeLoaded` proceeds (its entry guards pass) and its success path
hydrates the row straight back into Local Tree State — the single-node
fetch performs no tombstone check. -/
theorem ensureNodeLoaded_resurrects_tombstoned_cex :
    isTombstoned sC4 0 "r" = true ∧
    ensureNodeLoadedPlan sC4 "r" = some (0, "r", "r") ∧
    ((ensureNodeLoadedAfterFetch 0 "r" sC4 (.ok rowR)).nodes "r").isSome =
      true := by
  refine ⟨by decide, by decide, by decide⟩

/-- C4 amended: within the 5-minute TTL the reconciliation merge
(`loadChildren`) discards any server row whose id is tombstoned, but the
single-node fetch (`ensureNodeLoaded`) consults the registry nowhere — its
result is independent of `tombstoneReal`. -/
theorem tombstone_suppression_amended :
    (∀ (s : Store) (p : String) (now : Nat) (l1 : List ApiNode) (r : ApiNode)
        (l2 : List ApiNode) (t : Nat),
      s.tombstoneReal r.id = some t → now - t < 5 * 60 * 1000 →
      loadChildrenMerge s p (l1 ++ r :: l2) now =
        loadChildrenMerge s p (l1 ++ l2) now) ∧
    (∀ (s : Store) (ts : String → Option Nat) (nonce : Nat) (uiId : String)
        (r : FetchOutcome ApiNode),
      ensureNodeLoadedAfterFetch nonce uiId { s with tombstoneReal := ts } r =
        { ensureNodeLoadedAfterFetch nonce uiId s r with
          tombstoneReal := ts }) := by
  constructor
  · intro s p now l1 r l2 t ht hlt
    apply loadChildrenMerge_skips_tombstoned
    simp [isTombstoned, ht, hlt]
  · intro s ts nonce uiId r
    cases r with
    | ok n =>
      by_cases h : s.sessionNonce = nonce <;>
        simp [ensureNodeLoadedAfterFetch, h, hydrateNode,
          upsertFromApiToUiId]
    | http404 => rfl
    | err => rfl

/-- C4 amended witness: the tombstoned row `"r"` is dropped from a
concrete merge. -/
theorem tombstone_suppression_amended_witness :
    loadChildrenMerge sC4 "p" [rowR] 0 = loadChildrenMerge sC4 "p" [] 0 ∧
    ensureNodeLoadedAfterFetch 0 "r" { sC4 with tombstoneReal := sC4.tombstoneReal } (.ok rowR) =
      { ensureNodeLoadedAfterFetch 0 "r" sC4 (.ok rowR) with
        tombstoneReal := sC4.tombstoneReal } := by
  constructor
  · exact tombstone_suppression_amended.1 sC4 "p" 0 [] rowR [] 0
      (by decide) (by decide)
  · exact tombstone_suppression_amended.2 sC4 sC4.tombstoneReal 0 "r" (.ok rowR)

/-- C1: a text confirmation is merged only when its originating revision
equals the current `pendingTextRev`; hence after
`updateContent(id,t1); updateContent(id,t2)` with both confirmations
outstanding, the node's final content is `t2` in either arrival order. -/
theorem updateContent_revision_gating
    (s0 : Store) (id t1 t2 : String) (u1 u2 : ApiNode) (n : UiNode)
    (hid : id ≠ "") (hn : s0.nodes id = some n) (hu2 : u2.text = some t2) :
    (∀ (s : Store) (r : Nat) (u : ApiNode),
      (s.pendingTextRev id).getD 0 ≠ r →
      updateContentOnResponse s.sessionNonce s id r u = s) ∧
    ((updateContentOnResponse s0.sessionNonce
        (updateContentOnResponse s0.sessionNonce
          (updateContentLocal (updateContentLocal s0 id t1).1 id t2).1
          id (updateContentLocal s0 id t1).2.1 u1)
        id (updateContentLocal (updateContentLocal s0 id t1).1 id t2).2.1
        u2).nodes id).map (·.content) = some t2 ∧
    ((updateContentOnResponse s0.sessionNonce
        (updateContentOnResponse s0.sessionNonce
          (updateContentLocal (updateContentLocal s0 id t1).1 id t2).1
          id (updateContentLocal (updateContentLocal s0 id t1).1 id t2).2.1
          u2)
        id (updateContentLocal s0 id t1).2.1 u1).nodes id).map (·.content) =
      some t2 := by
  have hA1 : ((updateContentLocal s0 id t1).1).nodes id =
      some { n with content := t1 } := by
    simp [updateContentLocal, hid, hn, bumpSidebar]
  have hA2 : ((updateContentLocal s0 id t1).1).pendingTextRev id =
      some ((s0.pendingTextRev id).getD 0 + 1) := by
    simp [updateContentLocal, hid, hn, bumpSidebar]
  have hA3 : ((updateContentLocal s0 id t1).1).sessionNonce =
      s0.sessionNonce := by
    simp [updateContentLocal, hid, hn, bumpSidebar]
  have hA4 : (updateContentLocal s0 id t1).2.1 =
      (s0.pendingTextRev id).getD 0 + 1 := by
    simp [updateContentLocal, hid, hn]
  generalize hG1 : updateContentLocal s0 id t1 = P1 at hA1 hA2 hA3 hA4 ⊢
  clear hG1
  obtain ⟨S1, R1, O1⟩ := P1
  simp only [] at hA1 hA2 hA3 hA4 ⊢
  have hB1 : ((updateContentLocal S1 id t2).1).nodes id =
      some { n with content := t2 } := by
    simp [updateContentLocal, hid, hA1, bumpSidebar]
  have hB2 : ((updateContentLocal S1 id t2).1).pendingTextRev id =
      some ((s0.pendingTextRev id).getD 0 + 2) := by
    simp [updateContentLocal, hid, hA1, bumpSidebar, hA2]
  have hB3 : ((updateContentLocal S1 id t2).1).sessionNonce =
      s0.sessionNonce := by
    simp [updateContentLocal, hid, hA1, bumpSidebar, hA3]
  have hB4 : (updateContentLocal S1 id t2).2.1 =
      (s0.pendingTextRev id).getD 0 + 2 := by
    simp [updateContentLocal, hid, hA1, hA2]
  generalize hG2 : updateContentLocal S1 id t2 = P2 at hB1 hB2 hB3 hB4 ⊢
  clear hG2
  obtain ⟨S2, R2, O2⟩ := P2
  simp only [] at hB1 hB2 hB3 hB4 ⊢
  have hne21 : (s0.pendingTextRev id).getD 0 + 2 ≠
      (s0.pendingTextRev id).getD 0 + 1 := by omega
  have hne10 : (0 : Nat) ≠ (s0.pendingTextRev id).getD 0 + 1 := by omega
  refine ⟨?_, ?_, ?_⟩
  · intro s r u hne
    simp [updateContentOnResponse, hne]
  · have hskip : updateContentOnResponse s0.sessionNonce S2 id R1 u1 =
        S2 := by
      rw [hA4]
      simp [updateContentOnResponse, hB3, hB2, hne21]
    rw [hskip, hB4]
    simp [updateContentOnResponse, hB3, hB2, hB1, mergeTextOnly, hu2]
  · rw [hB4, hA4]
    have ha : (updateContentOnResponse s0.sessionNonce S2 id
        ((s0.pendingTextRev id).getD 0 + 2) u2).nodes id =
        some (mergeTextOnly (some { n with content := t2 }) u2) := by
      simp [updateContentOnResponse, hB3, hB2, hB1]
    have hb : (updateContentOnResponse s0.sessionNonce S2 id
        ((s0.pendingTextRev id).getD 0 + 2) u2).pendingTextRev id =
        none := by
      simp [updateContentOnResponse, hB3, hB2]
    have hc : (updateContentOnResponse s0.sessionNonce S2 id
        ((s0.pendingTextRev id).getD 0 + 2) u2).sessionNonce =
        s0.sessionNonce := by
      simp [updateContentOnResponse, hB3, hB2]
    have hskip2 : updateContentOnResponse s0.sessionNonce
        (updateContentOnResponse s0.sessionNonce S2 id
          ((s0.pendingTextRev id).getD 0 + 2) u2) id
        ((s0.pendingTextRev id).getD 0 + 1) u1 =
        updateContentOnResponse s0.sessionNonce S2 id
          ((s0.pendingTextRev id).getD 0 + 2) u2 := by
      generalize updateContentOnResponse s0.sessionNonce S2 id
        ((s0.pendingTextRev id).getD 0 + 2) u2 = S3 at hb hc ⊢
      simp [updateContentOnResponse, hc, hb, hne10]
    rw [hskip2, ha]
    simp [mergeTextOnly, hu2]

/-- C1 witness: the two-edit/two-confirmation race evaluated on a concrete
store, in the order "first confirmation arrives first". -/
theorem updateContent_revision_gating_witness :
    ((updateContentOnResponse sA.sessionNonce
        (updateContentOnResponse sA.sessionNonce
          (updateContentLocal (updateContentLocal sA "a" "t1").1 "a" "t2").1
          "a" (updateContentLocal sA "a" "t1").2.1
          ⟨"a", none, some "t1", none, none⟩)
        "a" (updateContentLocal (updateContentLocal sA "a" "t1").1 "a"
          "t2").2.1
        ⟨"a", none, some "t2", none, none⟩).nodes "a").map (·.content) =
      some "t2" := by
  exact (updateContent_revision_gating sA "a" "t1" "t2"
    ⟨"a", none, some "t1", none, none⟩ ⟨"a", none, some "t2", none, none⟩
    (mkNode "a" none "hi" [] none) (by decide) (by decide) (by decide)).2.1

/-- Helper: on a duplicate-free server list, the grow-as-you-scan append
loop equals a plain filter-append. -/
theorem appendNew_eq_filter (l : List String) (kept : List String)
    (hnd : l.Nodup) :
    appendNew kept l = kept ++ l.filter (fun x => !kept.contains x) := by
  induction l generalizing kept with
  | nil => simp [appendNew]
  | cons x xs ih =>
    rw [List.nodup_cons] at hnd
    obtain ⟨hx, hxs⟩ := hnd
    by_cases hm : x ∈ kept
    · have hstep : appendNew kept (x :: xs) = appendNew kept xs := by
        simp [appendNew, hm]
      rw [hstep, ih kept hxs]
      simp [List.filter_cons, hm]
    · have hstep : appendNew kept (x :: xs) = appendNew (kept ++ [x]) xs := by
        simp [appendNew, hm]
      rw [hstep, ih (kept ++ [x]) hxs]
      have hfc : xs.filter (fun y => !(kept ++ [x]).contains y) =
          xs.filter (fun y => !kept.contains y) := by
        apply List.filter_congr
        intro y hy
        have hyx : y ≠ x := fun h => hx (h ▸ hy)
        simp [List.mem_append, hyx]
      rw [hfc]
      simp [List.filter_cons, hm, List.append_assoc]

/-- The spec's notion of a currently-unbound provisional child: a temp id
whose node has no bound remote identity yet. -/
def specUnboundProvisional (s : Store) (cid : String) : Bool :=
  isTempId cid && ((s.nodes cid).bind (·.serverId)).isNone

/-- The Reconciliation Merge as worded by the spec (§4.3): start from the
parent's existing local order; keep unbound provisional children
unconditionally; keep bound children only if the server still lists them;
append remaining server children in server order. -/
def mergeSpecModel (s : Store) (uiParentId : String)
    (server : List String) : List String :=
  let localOrder := ((s.nodes uiParentId).map (·.children)).getD []
  let kept := localOrder.filter
    (fun cid => specUnboundProvisional s cid || server.contains cid)
  kept ++ server.filter (fun sid => !kept.contains sid)

/-- C2: on states whose pending-create ledger agrees with binding (an
active non-canceled pending-create entry exactly for unbound temp
children) and duplicate-free server lists, the implementation's merge
computes exactly the spec's merge. -/
theorem mergeChildrenPreserveLocal_refines_spec
    (s : Store) (uiParentId : String) (p : UiNode) (server : List String)
    (hp : s.nodes uiParentId = some p)
    (hnd : server.Nodup)
    (hex : ∀ cid ∈ p.children, (s.nodes cid).isSome)
    (hbind : ∀ cid ∈ p.children,
      stillPendingTemp s cid = specUnboundProvisional s cid) :
    mergeChildrenPreserveLocal s uiParentId server =
      mergeSpecModel s uiParentId server := by
  unfold mergeChildrenPreserveLocal mergeSpecModel
  rw [hp]
  simp only [Option.map_some', Option.getD_some]
  have hfl : p.children.filter (fun cid => (s.nodes cid).isSome) =
      p.children := by
    apply List.filter_eq_self.mpr
    intro cid hc
    exact hex cid hc
  rw [hfl]
  have hkept : p.children.filter
      (fun cid => stillPendingTemp s cid || server.contains cid) =
      p.children.filter
        (fun cid => specUnboundProvisional s cid || server.contains cid) := by
    apply List.filter_congr
    intro cid hc
    rw [hbind cid hc]
  rw [hkept]
  exact appendNew_eq_filter server _ hnd

/-- C2 witness: local `[tmp_A (provisional), B (bound)]` merged with server
`[B, C]` yields `[tmp_A, B, C]`, and the implementation agrees with the
spec model there. -/
theorem mergeChildrenPreserveLocal_refines_spec_witness :
    mergeChildrenPreserveLocal sPAB "P" ["B", "C"] =
      mergeSpecModel sPAB "P" ["B", "C"] ∧
    mergeChildrenPreserveLocal sPAB "P" ["B", "C"] = ["tmp_A", "B", "C"] := by
  refine ⟨mergeChildrenPreserveLocal_refines_spec sPAB "P"
    (mkNode "P" none "" ["tmp_A", "B"] none) ["B", "C"]
    (by decide) (by decide) (by decide) (by decide), by decide⟩

/-- C3: if the pending-create record is already canceled when the create
response arrives, binding is skipped entirely (no node/resolver mutation),
a compensating remote delete of the fresh id is dispatched, the id is
tombstoned at the current time, and — while the tombstone is unexpired —
every subsequent children fetch discards any server row carrying it. -/
theorem cancelBeforeBind_compensates
    (s : Store) (nonce : Nat) (tempId parentId createdId : String)
    (now : Nat) (patchOk : Bool) (pc : PendingCreate)
    (hnonce : s.sessionNonce = nonce)
    (hpc : s.pendingCreate tempId = some pc)
    (hcanceled : pc.canceled = true) :
    (appendChildAfterCreate s nonce tempId parentId createdId now
        patchOk).2 =
      [RemoteOp.deleteNode createdId, RemoteOp.refetchChildren parentId] ∧
    (appendChildAfterCreate s nonce tempId parentId createdId now
        patchOk).1.nodes = s.nodes ∧
    (appendChildAfterCreate s nonce tempId parentId createdId now
        patchOk).1.idRedirect = s.idRedirect ∧
    (appendChildAfterCreate s nonce tempId parentId createdId now
        patchOk).1.realToTemp = s.realToTemp ∧
    (appendChildAfterCreate s nonce tempId parentId createdId now
        patchOk).1.tombstoneReal createdId = some now ∧
    (appendChildAfterCreate s nonce tempId parentId createdId now
        patchOk).1.pendingCreate tempId = none ∧
    (∀ (now2 : Nat) (p2 : String) (l1 l2 : List ApiNode) (r2 : ApiNode),
      r2.id = createdId → now2 - now < 5 * 60 * 1000 →
      loadChildrenMerge
          (appendChildAfterCreate s nonce tempId parentId createdId now
            patchOk).1 p2 (l1 ++ r2 :: l2) now2 =
        loadChildrenMerge
          (appendChildAfterCreate s nonce tempId parentId createdId now
            patchOk).1 p2 (l1 ++ l2) now2) := by
  have hform : appendChildAfterCreate s nonce tempId parentId createdId now
      patchOk =
      ({ s with
          tombstoneReal := upd s.tombstoneReal createdId (some now)
          pendingCreate := upd s.pendingCreate tempId none },
        [RemoteOp.deleteNode createdId,
         RemoteOp.refetchChildren parentId]) := by
    simp [appendChildAfterCreate, hnonce, hpc, hcanceled]
  rw [hform]
  refine ⟨rfl, rfl, rfl, rfl, by simp, by simp, ?_⟩
  intro now2 p2 l1 l2 r2 hr2 hlt
  apply loadChildrenMerge_skips_tombstoned
  simp [isTombstoned, hr2, hlt]

/-- Concrete state for the C3 witness: provisional node `"tmp_x"` whose
pending create is already canceled. -/
def sCancel : Store :=
  { emptyStore with
    nodes :=
      upd (upd emptyStore.nodes "P" (some (mkNode "P" none "" ["tmp_x"] none)))
        "tmp_x" (some (mkNode "tmp_x" (some "P") "" [] none)),
    pendingCreate := upd emptyStore.pendingCreate "tmp_x"
      (some { parentId := "P", canceled := true, createdRealId := none }) }

/-- C3 witness: the canceled create response for fresh remote id `"r9"`
is compensated on a concrete state, and a fetch listing `"r9"` right after
is merged as if the row were absent. -/
theorem cancelBeforeBind_compensates_witness :
    (appendChildAfterCreate sCancel 0 "tmp_x" "P" "r9" 100 true).2 =
      [RemoteOp.deleteNode "r9", RemoteOp.refetchChildren "P"] ∧
    (appendChildAfterCreate sCancel 0 "tmp_x" "P" "r9" 100 true).1.nodes =
      sCancel.nodes ∧
    loadChildrenMerge
        (appendChildAfterCreate sCancel 0 "tmp_x" "P" "r9" 100 true).1 "P"
        [⟨"r9", some "P", some "", some 0, none⟩] 200 =
      loadChildrenMerge
        (appendChildAfterCreate sCancel 0 "tmp_x" "P" "r9" 100 true).1 "P"
        [] 200 := by
  have h := cancelBeforeBind_compensates sCancel 0 "tmp_x" "P" "r9" 100 true
    { parentId := "P", canceled := true, createdRealId := none }
    (by decide) (by decide) (by decide)
  exact ⟨h.1, h.2.1,
    h.2.2.2.2.2.2 200 "P" [] [] ⟨"r9", some "P", some "", some 0, none⟩
      (by decide) (by decide)⟩

/-- Helper: the reindex loop either leaves an entry alone or only rewrites
its `orderIndex`. -/
theorem assignIdx_shape (l : List String) (i : Nat)
    (m : String → Option UiNode) (x : String) :
    assignIdx l i m x = m x ∨
    ∃ cn j, m x = some cn ∧
      assignIdx l i m x = some { cn with orderIndex := j } := by
  induction l generalizing i m with
  | nil => exact Or.inl rfl
  | cons c rest ih =>
    cases hmc : m c with
    | none =>
      have hstep : assignIdx (c :: rest) i m = assignIdx rest (i + 1) m := by
        simp [assignIdx, hmc]
      rw [hstep]
      exact ih (i + 1) m
    | some cn =>
      have hstep : assignIdx (c :: rest) i m =
          assignIdx rest (i + 1)
            (upd m c (some { cn with orderIndex := i })) := by
        simp [assignIdx, hmc]
      rw [hstep]
      rcases ih (i + 1) (upd m c (some { cn with orderIndex := i })) with
        h | ⟨cn', j, hmx, hres⟩
      · by_cases hxc : x = c
        · subst hxc
          right
          exact ⟨cn, i, hmc, by rw [h]; simp⟩
        · left
          rw [h, upd_other _ _ _ _ hxc]
      · by_cases hxc : x = c
        · subst hxc
          rw [upd_same] at hmx
          right
          refine ⟨cn, j, hmc, ?_⟩
          rw [hres]
          cases hmx
          rfl
        · rw [upd_other _ _ _ _ hxc] at hmx
          right
          exact ⟨cn', j, hmx, hres⟩

/-- Helper: recomputing order indices either leaves an entry alone or only
rewrites its `orderIndex`/`hasChildren`. -/
theorem recomputeD_shape (s : Store) (P x : String) :
    recomputeD s P x = s.nodes x ∨
    ∃ cn oi hc, s.nodes x = some cn ∧
      recomputeD s P x = some { cn with orderIndex := oi
                                        hasChildren := hc } := by
  unfold recomputeD recomputeOrderIndices
  cases hp : s.nodes P with
  | none => exact Or.inl rfl
  | some p =>
    simp only [Option.getD_some]
    by_cases hxP : x = P
    · subst hxP
      rw [upd_same]
      exact Or.inr ⟨p, p.orderIndex, some (decide (0 < p.children.length)),
        hp, rfl⟩
    · rw [upd_other _ _ _ _ hxP]
      rcases assignIdx_shape p.children 0 s.nodes x with h | ⟨cn, j, hm, h⟩
      · exact Or.inl h
      · exact Or.inr ⟨cn, j, cn.hasChildren, hm, h⟩

/-- Reindexing does not change which server id an entry is bound to. -/
theorem recomputeD_bind_serverId (s : Store) (P x : String) :
    (recomputeD s P x).bind (·.serverId) = (s.nodes x).bind (·.serverId) := by
  rcases recomputeD_shape s P x with h | ⟨cn, oi, hc, hm, h⟩
  · rw [h]
  · simp [h, hm]

/-- Reindexing does not change an entry's content. -/
theorem recomputeD_map_content (s : Store) (P x : String) :
    (recomputeD s P x).map (·.content) = (s.nodes x).map (·.content) := by
  rcases recomputeD_shape s P x with h | ⟨cn, oi, hc, hm, h⟩
  · rw [h]
  · simp [h, hm]

/-- Reindexing does not change an entry's children list. -/
theorem recomputeD_map_children (s : Store) (P x : String) :
    (recomputeD s P x).map (·.children) = (s.nodes x).map (·.children) := by
  rcases recomputeD_shape s P x with h | ⟨cn, oi, hc, hm, h⟩
  · rw [h]
  · simp [h, hm]

/-- Reindexing does not create or delete entries. -/
theorem recomputeD_isSome (s : Store) (P x : String) :
    (recomputeD s P x).isSome = (s.nodes x).isSome := by
  rcases recomputeD_shape s P x with h | ⟨cn, oi, hc, hm, h⟩
  · rw [h]
  · simp [h, hm]

/-- C7: indenting an unbound provisional node dispatches nothing and
stores only the latest from/to parents in its queue entry (preserving any
queued outdent); when the node binds, the drain step deletes the entry
first and then makes at most one structural dispatch — exactly one
`indentNode` call once the id resolves to a remote id. -/
theorem structural_queue_latest_and_drain_once :
    (∀ (s : Store) (id : String) (node op2 np : UiNode)
        (oldP newP : String) (idx : Nat),
      s.nodes id = some node → node.parentId = some oldP → oldP ≠ "" →
      s.nodes oldP = some op2 →
      op2.children.findIdx? (· = id) = some idx → idx ≠ 0 →
      op2.children[idx - 1]? = some newP → s.nodes newP = some np →
      isTempId id = true → node.serverId = none →
      (indent s id).2 = [] ∧
      (indent s id).1.pendingOps id =
        some { indentOp := some (oldP, newP)
               outdentOp := (s.pendingOps id).bind (·.outdentOp) }) ∧
    (∀ (s2 : Store) (tempId f t : String) (op : PendingOp),
      s2.pendingOps tempId = some op → op.indentOp = some (f, t) →
      (drainPendingOps s2 tempId).1.pendingOps tempId = none ∧
      (drainPendingOps s2 tempId).2.length ≤ 1 ∧
      (isTempId (resolveIdForApi s2 tempId) = false →
        (drainPendingOps s2 tempId).2 =
          [RemoteOp.indentNode (resolveIdForApi s2 tempId)])) := by
  constructor
  · intro s id node op2 np oldP newP idx hnode hparent hop hop2 hidx hidx0
      hget hnp htemp hsid
    constructor
    · simp [indent, hnode, hparent, hop2, hidx, hget, hnp, hop, hidx0,
        bumpSidebar, recomputeD_bind_serverId, htemp, hsid, optTruthy]
    · simp [indent, hnode, hparent, hop2, hidx, hget, hnp, hop, hidx0,
        bumpSidebar, recomputeD_bind_serverId, htemp, hsid, optTruthy]
  · intro s2 tempId f t op hop hind
    have hform : drainPendingOps s2 tempId =
        ({ s2 with pendingOps := upd s2.pendingOps tempId none },
          serverIndentDispatch
            { s2 with pendingOps := upd s2.pendingOps tempId none }
            tempId) := by
      simp [drainPendingOps, hop, hind]
    rw [hform]
    have hres : resolveIdForApi
        { s2 with pendingOps := upd s2.pendingOps tempId none } tempId =
        resolveIdForApi s2 tempId := rfl
    refine ⟨by simp, ?_, ?_⟩
    · simp only [serverIndentDispatch, hres]
      split <;> simp
    · intro hreal
      simp [serverIndentDispatch, hres, hreal]

/-- Concrete state for the C7 witness: `"tmp_q"` is an unbound provisional
node under `"P"`; sibling `"y"` (with child `"c"`) allows two successive
indents. -/
def sQ7 : Store :=
  { emptyStore with
    nodes :=
      upd (upd (upd (upd emptyStore.nodes
        "P" (some (mkNode "P" none "root" ["y", "tmp_q"] none)))
        "y" (some (mkNode "y" (some "P") "y" ["c"] none)))
        "c" (some (mkNode "c" (some "y") "c" [] none)))
        "tmp_q" (some (mkNode "tmp_q" (some "P") "" [] none)),
    pendingCreate := upd emptyStore.pendingCreate "tmp_q"
      (some { parentId := "P", canceled := false, createdRealId := none }) }

/-- Concrete state for the drain half of the C7 witness: the queue holds
`("y","c")` for `"tmp_q"`, now bound to remote id `"R"`. -/
def sDrain : Store :=
  { emptyStore with
    nodes := upd emptyStore.nodes "tmp_q"
      (some (mkNode "tmp_q" (some "y") "" [] (some "R"))),
    pendingOps := upd emptyStore.pendingOps "tmp_q"
      (some { indentOp := some ("y", "c"), outdentOp := none }) }

/-- C7 witness: two indents of the unbound `"tmp_q"` dispatch nothing and
leave only the latest `("y","c")` queued; draining after binding deletes
the entry and dispatches exactly one `indentNode "R"`. -/
theorem structural_queue_latest_and_drain_once_witness :
    (indent (indent sQ7 "tmp_q").1 "tmp_q").2 = [] ∧
    (indent (indent sQ7 "tmp_q").1 "tmp_q").1.pendingOps "tmp_q" =
      some { indentOp := some ("y", "c"), outdentOp := none } ∧
    (drainPendingOps sDrain "tmp_q").1.pendingOps "tmp_q" = none ∧
    (drainPendingOps sDrain "tmp_q").2 = [RemoteOp.indentNode "R"] := by
  have h1 := structural_queue_latest_and_drain_once.1
    (indent sQ7 "tmp_q").1 "tmp_q"
    { id := "tmp_q", parentId := some "y", content := "", orderIndex := 1,
      children := [], hasChildren := some false, isCollapsed := some false,
      serverId := none }
    { id := "y", parentId := some "P", content := "y", orderIndex := 0,
      children := ["c", "tmp_q"], hasChildren := some true,
      isCollapsed := some false, serverId := none }
    { id := "c", parentId := some "y", content := "c", orderIndex := 0,
      children := [], hasChildren := some false, isCollapsed := some false,
      serverId := none }
    "y" "c" 1 (by decide) (by decide) (by decide) (by decide) (by decide)
    (by decide) (by decide) (by decide) (by decide) (by decide)
  have h2 := structural_queue_latest_and_drain_once.2 sDrain "tmp_q" "y" "c"
    { indentOp := some ("y", "c"), outdentOp := none }
    (by decide) (by decide)
  refine ⟨h1.1, h1.2.trans (by decide), h2.1, ?_⟩
  exact (h2.2.2 (by decide)).trans (by decide)

/-- Helper: draining the structural queue only deletes the queue entry in
the state (the dispatch is returned separately). -/
theorem drainPendingOps_fst (s : Store) (x : String) :
    (drainPendingOps s x).1 =
      { s with pendingOps := upd s.pendingOps x none } := by
  rcases h1 : s.pendingOps x with _ | op
  · simp [drainPendingOps, h1]
  · rcases h2 : op.indentOp with _ | p
    · rcases h3 : op.outdentOp with _ | q
      · simp [drainPendingOps, h1, h2, h3]
      · simp [drainPendingOps, h1, h2, h3]
    · simp [drainPendingOps, h1, h2]

/-- Helper: a children fetch whose last row is the bound remote row of
`tempId` (server echoing text `t`) leaves the node's visible content `t`,
whether or not the pending text was already flushed. -/
theorem merge_preserves_pending_content
    (S : Store) (parentId tempId createdId t : String) (row : ApiNode)
    (l1 : List ApiNode) (now2 : Nat)
    (hrt : S.realToTemp createdId = some tempId)
    (hpend : S.pendingText tempId = none ∨ S.pendingText tempId = some t)
    (hrow : row.id = createdId) (hrowt : row.text = some t)
    (hts : isTombstoned S now2 createdId = false)
    (hptid : tempId ≠ parentId)
    (hneq : tempId ≠ createdId) :
    ((loadChildrenMerge S parentId (l1 ++ [row]) now2).nodes tempId).map
      (·.content) = some t := by
  unfold loadChildrenMerge
  rw [List.foldl_append]
  simp only [List.foldl_cons, List.foldl_nil]
  generalize (List.foldl (loadChildrenRowStep S now2) (S.nodes, []) l1) = acc
  have hstep : loadChildrenRowStep S now2 acc row =
      (upd acc.1 tempId
        (some { upsertFromApiToUiId S tempId row with
                  serverId := some row.id }),
        acc.2 ++ [tempId]) := by
    simp only [loadChildrenRowStep, hrow, hts, hrt]
    simp [hneq.symm, Ne.symm hneq, hneq]
  simp only [hstep]
  have hcontent : (upsertFromApiToUiId S tempId row).content = t := by
    unfold upsertFromApiToUiId
    rcases hpend with h | h <;> simp [h, hrowt]
  rw [recomputeD_map_content]
  simp only []
  rw [upd_other _ _ _ _ hptid, upd_same]
  simp [hcontent]

/-- C6: text typed into a provisional node before its create confirmation
is never lost: after the bind step the node still shows it, the bind step
flushes exactly that text to the new remote id, and any subsequent
reconciliation of the parent (the server now echoing the flushed text)
still shows it — whether or not the flush patch succeeded. -/
theorem provisional_durability
    (s0 : Store) (tempId parentId createdId t : String) (now : Nat)
    (n0 : UiNode) (pc : PendingCreate) (patchOk : Bool)
    (htemp : isTempId tempId = true)
    (hreal : isTempId createdId = false)
    (hn0 : s0.nodes tempId = some n0)
    (hpc : s0.pendingCreate tempId = some pc)
    (hcanc : pc.canceled = false)
    (hptid : tempId ≠ parentId) :
    ((appendChildAfterCreate (updateContentLocal s0 tempId t).1
        s0.sessionNonce tempId parentId createdId now
        patchOk).1.nodes tempId).map (·.content) = some t ∧
    RemoteOp.patchNode createdId t ∈
      (appendChildAfterCreate (updateContentLocal s0 tempId t).1
        s0.sessionNonce tempId parentId createdId now patchOk).2 ∧
    (∀ (now2 : Nat) (l1 : List ApiNode) (row : ApiNode),
      row.id = createdId → row.text = some t →
      isTombstoned
        (appendChildAfterCreate (updateContentLocal s0 tempId t).1
          s0.sessionNonce tempId parentId createdId now patchOk).1
        now2 createdId = false →
      ((loadChildrenMerge
          (appendChildAfterCreate (updateContentLocal s0 tempId t).1
            s0.sessionNonce tempId parentId createdId now patchOk).1
          parentId (l1 ++ [row]) now2).nodes tempId).map (·.content) =
        some t) := by
  have htid : tempId ≠ "" := by
    intro h
    rw [h] at htemp
    exact Bool.noConfusion ((by decide : isTempId "" = false).symm.trans
      htemp)
  have hneq : tempId ≠ createdId := by
    intro h
    rw [h, hreal] at htemp
    exact Bool.noConfusion htemp
  have a1 : (updateContentLocal s0 tempId t).1.nodes tempId =
      some { n0 with content := t } := by
    simp [updateContentLocal, htid, hn0, bumpSidebar]
  have a2 : (updateContentLocal s0 tempId t).1.pendingText tempId =
      some t := by
    simp [updateContentLocal, htid, hn0, bumpSidebar]
  have a3 : (updateContentLocal s0 tempId t).1.pendingCreate tempId =
      some pc := by
    simp [updateContentLocal, htid, hn0, bumpSidebar, hpc]
  have a4 : (updateContentLocal s0 tempId t).1.sessionNonce =
      s0.sessionNonce := by
    simp [updateContentLocal, htid, hn0, bumpSidebar]
  generalize hg : (updateContentLocal s0 tempId t).1 = S1 at a1 a2 a3 a4 ⊢
  have hb_nodes : (appendChildAfterCreate S1 s0.sessionNonce tempId
      parentId createdId now patchOk).1.nodes =
      upd S1.nodes tempId
        (some { n0 with content := t, serverId := some createdId }) := by
    cases patchOk <;>
      simp [appendChildAfterCreate, a4, a3, hcanc, a1, drainPendingOps_fst,
        bumpSidebar]
  have hb_rt : (appendChildAfterCreate S1 s0.sessionNonce tempId parentId
      createdId now patchOk).1.realToTemp =
      upd S1.realToTemp createdId (some tempId) := by
    cases patchOk <;>
      simp [appendChildAfterCreate, a4, a3, hcanc, a1, drainPendingOps_fst,
        bumpSidebar]
  have hb_pt : (appendChildAfterCreate S1 s0.sessionNonce tempId parentId
      createdId now patchOk).1.pendingText tempId = none ∨
      (appendChildAfterCreate S1 s0.sessionNonce tempId parentId createdId
        now patchOk).1.pendingText tempId = some t := by
    cases patchOk
    · right
      simp [appendChildAfterCreate, a4, a3, hcanc, a1, drainPendingOps_fst,
        bumpSidebar, a2]
    · left
      simp [appendChildAfterCreate, a4, a3, hcanc, a1, drainPendingOps_fst,
        bumpSidebar]
  have hb_ops : RemoteOp.patchNode createdId t ∈
      (appendChildAfterCreate S1 s0.sessionNonce tempId parentId createdId
        now patchOk).2 := by
    cases patchOk <;>
      simp [appendChildAfterCreate, a4, a3, hcanc, a1, a2,
        drainPendingOps_fst, bumpSidebar]
  refine ⟨?_, hb_ops, ?_⟩
  · rw [hb_nodes]
    simp
  · intro now2 l1 row hrow hrowt hts
    apply merge_preserves_pending_content _ _ _ _ _ _ _ _
      (by rw [hb_rt]; simp) hb_pt hrow hrowt hts hptid hneq

/-- C6 witness: typing `"hello"` into provisional `"tmp_A"` (state `sPAB`)
before its create response, then binding to `"r1"`, keeps the content
visible, and a follow-up fetch echoing the flushed text keeps it too. -/
theorem provisional_durability_witness :
    ((appendChildAfterCreate (updateContentLocal sPAB "tmp_A" "hello").1
        sPAB.sessionNonce "tmp_A" "P" "r1" 0 true).1.nodes "tmp_A").map
      (·.content) = some "hello" ∧
    ((loadChildrenMerge
        (appendChildAfterCreate (updateContentLocal sPAB "tmp_A" "hello").1
          sPAB.sessionNonce "tmp_A" "P" "r1" 0 true).1
        "P" ([] ++ [⟨"r1", some "P", some "hello", some 0, none⟩])
        5).nodes "tmp_A").map (·.content) = some "hello" := by
  have h := provisional_durability sPAB "tmp_A" "P" "r1" "hello" 0
    (mkNode "tmp_A" (some "P") "a" [] none)
    { parentId := "P", canceled := false, createdRealId := none } true
    (by decide) (by decide) (by decide) (by decide) (by decide) (by decide)
  exact ⟨h.1, h.2.2 5 [] ⟨"r1", some "P", some "hello", some 0, none⟩
    (by decide) (by decide) (by decide)⟩

/-- Helper: membership from an indexed lookup. -/
theorem mem_of_lookup {l : List String} {k : Nat} {a : String}
    (h : l[k]? = some a) : a ∈ l := by
  obtain ⟨hlt, he⟩ := List.getElem?_eq_some_iff.mp h
  exact he ▸ l.getElem_mem hlt

/-- Helper: `removeFromArray` on a cons cell. -/
theorem removeFromArray_cons (a : String) (l : List String) (x : String) :
    removeFromArray (a :: l) x =
      if a = x then l else a :: removeFromArray l x := by
  by_cases h : a = x
  · simp [removeFromArray, List.findIdx?_cons, h]
  · simp only [removeFromArray, List.findIdx?_cons, List.findIdx?_succ]
    cases hfi : List.findIdx? (fun y => decide (y = x)) l 0 with
    | none => simp [hfi, h]
    | some i => simp [hfi, h, List.take_succ_cons, List.drop_succ_cons]

/-- Helper: `insertAfter` on a cons cell. -/
theorem insertAfter_cons (b : String) (l : List String) (a x : String) :
    insertAfter (b :: l) a x =
      if b = a then b :: x :: l else b :: insertAfter l a x := by
  by_cases h : b = a
  · simp [insertAfter, List.findIdx?_cons, h]
  · simp only [insertAfter, List.findIdx?_cons, List.findIdx?_succ]
    cases hfi : List.findIdx? (fun y => decide (y = a)) l 0 with
    | none => simp [hfi, h]
    | some i => simp [hfi, h, List.take_succ_cons, List.drop_succ_cons]

/-- Helper: removal only drops elements. -/
theorem mem_of_mem_removeFromArray {l : List String} {x y : String}
    (h : y ∈ removeFromArray l x) : y ∈ l := by
  induction l with
  | nil => simpa [removeFromArray] using h
  | cons a rest ih =>
    rw [removeFromArray_cons] at h
    by_cases hax : a = x
    · rw [if_pos hax] at h
      exact List.mem_cons_of_mem a h
    · rw [if_neg hax] at h
      rcases List.mem_cons.mp h with h | h
      · exact h ▸ List.mem_cons_self a rest
      · exact List.mem_cons_of_mem a (ih h)

/-- Helper: removal preserves duplicate-freedom. -/
theorem nodup_removeFromArray {l : List String} (x : String)
    (h : l.Nodup) : (removeFromArray l x).Nodup := by
  induction l with
  | nil => simpa [removeFromArray] using h
  | cons a rest ih =>
    rw [List.nodup_cons] at h
    rw [removeFromArray_cons]
    by_cases hax : a = x
    · rw [if_pos hax]
      exact h.2
    · rw [if_neg hax]
      rw [List.nodup_cons]
      exact ⟨fun hm => h.1 (mem_of_mem_removeFromArray hm), ih h.2⟩

/-- Helper: on a duplicate-free list, the removed element is gone. -/
theorem not_mem_removeFromArray_self {l : List String} {x : String}
    (h : l.Nodup) : x ∉ removeFromArray l x := by
  induction l with
  | nil => simp [removeFromArray]
  | cons a rest ih =>
    rw [List.nodup_cons] at h
    rw [removeFromArray_cons]
    by_cases hax : a = x
    · rw [if_pos hax]
      rw [hax] at h
      exact h.1
    · rw [if_neg hax]
      intro hm
      rcases List.mem_cons.mp hm with hm | hm
      · exact hax hm.symm
      · exact ih h.2 hm

/-- Helper: membership after an insertion. -/
theorem mem_of_mem_insertAfter {l : List String} {a x y : String}
    (h : y ∈ insertAfter l a x) : y ∈ l ∨ y = x := by
  induction l with
  | nil =>
    simp only [insertAfter, List.findIdx?_nil, List.nil_append] at h
    rcases List.mem_singleton.mp h with h
    exact Or.inr h
  | cons b rest ih =>
    rw [insertAfter_cons] at h
    by_cases hba : b = a
    · rw [if_pos hba] at h
      rcases List.mem_cons.mp h with h | h
      · exact Or.inl (h ▸ List.mem_cons_self b rest)
      · rcases List.mem_cons.mp h with h | h
        · exact Or.inr h
        · exact Or.inl (List.mem_cons_of_mem b h)
    · rw [if_neg hba] at h
      rcases List.mem_cons.mp h with h | h
      · exact Or.inl (h ▸ List.mem_cons_self b rest)
      · rcases ih h with h | h
        · exact Or.inl (List.mem_cons_of_mem b h)
        · exact Or.inr h

/-- Helper: inserting a fresh element preserves duplicate-freedom. -/
theorem nodup_insertAfter {l : List String} {a x : String}
    (hnd : l.Nodup) (hx : x ∉ l) : (insertAfter l a x).Nodup := by
  induction l with
  | nil => simp [insertAfter]
  | cons b rest ih =>
    rw [List.nodup_cons] at hnd
    have hxr : x ∉ rest := fun h => hx (List.mem_cons_of_mem b h)
    have hxb : x ≠ b := fun h => hx (h ▸ List.mem_cons_self b rest)
    rw [insertAfter_cons]
    by_cases hba : b = a
    · rw [if_pos hba]
      rw [List.nodup_cons, List.nodup_cons]
      refine ⟨?_, hxr, hnd.2⟩
      intro hm
      rcases List.mem_cons.mp hm with hm | hm
      · exact hxb hm.symm
      · exact hnd.1 hm
    · rw [if_neg hba]
      rw [List.nodup_cons]
      refine ⟨?_, ih hnd.2 hxr⟩
      intro hm
      rcases mem_of_mem_insertAfter hm with hm | hm
      · exact hnd.1 hm
      · exact hxb (hm ▸ rfl)

/-- The data-model invariant of C8: in map `m`, every existing child of
`parentId` carries as `orderIndex` its position in the parent's
`children`. -/
def childOrderOk (m : String → Option UiNode) (parentId : String) : Prop :=
  ∀ p, m parentId = some p →
    ∀ (k : Nat) (cid : String), p.children[k]? = some cid →
      ∀ c, m cid = some c → c.orderIndex = k

/-- Helper: the reindex loop does not touch unlisted keys. -/
theorem assignIdx_not_mem (l : List String) (i : Nat)
    (m : String → Option UiNode) (x : String) (hx : x ∉ l) :
    assignIdx l i m x = m x := by
  induction l generalizing i m with
  | nil => rfl
  | cons c rest ih =>
    have hxc : x ≠ c := fun h => hx (h ▸ List.mem_cons_self c rest)
    have hxr : x ∉ rest := fun h => hx (List.mem_cons_of_mem c h)
    cases hmc : m c with
    | none =>
      have hstep : assignIdx (c :: rest) i m = assignIdx rest (i + 1) m := by
        simp [assignIdx, hmc]
      rw [hstep, ih (i + 1) m hxr]
    | some cn =>
      have hstep : assignIdx (c :: rest) i m =
          assignIdx rest (i + 1)
            (upd m c (some { cn with orderIndex := i })) := by
        simp [assignIdx, hmc]
      rw [hstep, ih (i + 1) _ hxr, upd_other _ _ _ _ hxc]

/-- Helper: on a duplicate-free list, the reindex loop writes position
`i + k` at the `k`-th listed key. -/
theorem assignIdx_at (l : List String) (k : Nat) (cid : String) (i : Nat)
    (m : String → Option UiNode) (hnd : l.Nodup) (hk : l[k]? = some cid) :
    assignIdx l i m cid =
      (m cid).map (fun cn => { cn with orderIndex := i + k }) := by
  induction l generalizing i k m with
  | nil => cases hk
  | cons c rest ih =>
    rw [List.nodup_cons] at hnd
    cases k with
    | zero =>
      have hc : c = cid := by simpa using hk
      subst hc
      cases hmc : m c with
      | none =>
        have hstep : assignIdx (c :: rest) i m = assignIdx rest (i + 1) m := by
          simp [assignIdx, hmc]
        rw [hstep, assignIdx_not_mem rest (i + 1) m c hnd.1, hmc]
        rfl
      | some cn =>
        have hstep : assignIdx (c :: rest) i m =
            assignIdx rest (i + 1)
              (upd m c (some { cn with orderIndex := i })) := by
          simp [assignIdx, hmc]
        rw [hstep, assignIdx_not_mem rest (i + 1) _ c hnd.1, upd_same]
        simp
    | succ k' =>
      have hk' : rest[k']? = some cid := by simpa using hk
      have hmem : cid ∈ rest := mem_of_lookup hk'
      have hcc : cid ≠ c := fun h => hnd.1 (h ▸ hmem)
      have harith : i + 1 + k' = i + (k' + 1) := by omega
      cases hmc : m c with
      | none =>
        have hstep : assignIdx (c :: rest) i m = assignIdx rest (i + 1) m := by
          simp [assignIdx, hmc]
        rw [hstep, ih k' (i + 1) m hnd.2 hk', harith]
      | some cn =>
        have hstep : assignIdx (c :: rest) i m =
            assignIdx rest (i + 1)
              (upd m c (some { cn with orderIndex := i })) := by
          simp [assignIdx, hmc]
        rw [hstep, ih k' (i + 1) _ hnd.2 hk', upd_other _ _ _ _ hcc, harith]

/-- Helper (main step of C8): after `recomputeOrderIndices` on a parent
with duplicate-free children not containing itself, the order invariant
holds at that parent. -/
theorem childOrderOk_recomputeD (s : Store) (P : String) (p : UiNode)
    (hp : s.nodes P = some p) (hnd : p.children.Nodup)
    (hself : P ∉ p.children) :
    childOrderOk (recomputeD s P) P := by
  have hform : recomputeD s P = upd (assignIdx p.children 0 s.nodes) P
      (some { p with
                hasChildren := some (decide (0 < p.children.length)) }) := by
    simp [recomputeD, recomputeOrderIndices, hp]
  intro q hq k cid hk c hc
  rw [hform] at hq hc
  rw [upd_same] at hq
  injection hq with hq'
  subst hq'
  have hk' : p.children[k]? = some cid := hk
  have hmem : cid ∈ p.children := mem_of_lookup hk'
  have hcidP : cid ≠ P := fun h => hself (h ▸ hmem)
  rw [upd_other _ _ _ _ hcidP,
    assignIdx_at p.children k cid 0 s.nodes hnd hk'] at hc
  cases hsn : s.nodes cid with
  | none => rw [hsn] at hc; cases hc
  | some cn =>
    rw [hsn] at hc
    injection hc with hc'
    rw [← hc']
    simp

/-- Helper (preservation step of C8): recomputing a different parent `Q`
whose children are disjoint from `P`'s preserves the order invariant at
`P`. -/
theorem childOrderOk_recomputeD_other (s : Store) (P Q : String)
    (h : childOrderOk s.nodes P) (hPQ : P ≠ Q)
    (hdisj : ∀ p q, s.nodes P = some p → s.nodes Q = some q →
      ∀ x ∈ q.children, x ∉ p.children) :
    childOrderOk (recomputeD s Q) P := by
  cases hq : s.nodes Q with
  | none =>
    have hform : recomputeD s Q = s.nodes := by
      simp [recomputeD, recomputeOrderIndices, hq]
    rw [hform]
    exact h
  | some q =>
    have hform : recomputeD s Q = upd (assignIdx q.children 0 s.nodes) Q
        (some { q with
                  hasChildren :=
                    some (decide (0 < q.children.length)) }) := by
      simp [recomputeD, recomputeOrderIndices, hq]
    rw [hform]
    intro p' hp' k cid hk c hc
    rw [upd_other _ _ _ _ hPQ] at hp'
    obtain ⟨p, hpP, hch⟩ : ∃ p, s.nodes P = some p ∧
        p'.children = p.children := by
      rcases assignIdx_shape q.children 0 s.nodes P with hsh | ⟨cn, j, hmP, hsh⟩
      · rw [hsh] at hp'
        exact ⟨p', hp', rfl⟩
      · rw [hsh] at hp'
        injection hp' with e
        exact ⟨cn, hmP, by rw [← e]⟩
    rw [hch] at hk
    have hmem : cid ∈ p.children := mem_of_lookup hk
    by_cases hcq : cid = Q
    · subst hcq
      rw [upd_same] at hc
      injection hc with e
      rw [← e]
      simpa using h p hpP k cid hk q hq
    · rw [upd_other _ _ _ _ hcq] at hc
      have hnotq : cid ∉ q.children :=
        fun hin => (hdisj p q hpP hq cid hin) hmem
      rw [assignIdx_not_mem _ _ _ _ hnotq] at hc
      exact h p hpP k cid hk c hc

/-- Helper: the append loop preserves duplicate-freedom of the kept
prefix. -/
theorem appendNew_nodup (l : List String) (kept : List String)
    (h : kept.Nodup) : (appendNew kept l).Nodup := by
  induction l generalizing kept with
  | nil => exact h
  | cons x xs ih =>
    by_cases hm : x ∈ kept
    · have hstep : appendNew kept (x :: xs) = appendNew kept xs := by
        simp [appendNew, hm]
      rw [hstep]
      exact ih kept h
    · have hstep : appendNew kept (x :: xs) =
          appendNew (kept ++ [x]) xs := by
        simp [appendNew, hm]
      rw [hstep]
      refine ih (kept ++ [x]) ?_
      refine List.Nodup.append h (List.nodup_singleton x) ?_
      intro a ha hb
      rw [List.mem_singleton] at hb
      exact hm (hb ▸ ha)

/-- Helper: the append loop introduces no foreign elements. -/
theorem mem_appendNew (l : List String) (kept : List String) (y : String)
    (h : y ∈ appendNew kept l) : y ∈ kept ∨ y ∈ l := by
  induction l generalizing kept with
  | nil => exact Or.inl h
  | cons x xs ih =>
    by_cases hm : x ∈ kept
    · have hstep : appendNew kept (x :: xs) = appendNew kept xs := by
        simp [appendNew, hm]
      rw [hstep] at h
      rcases ih kept h with h | h
      · exact Or.inl h
      · exact Or.inr (List.mem_cons_of_mem x h)
    · have hstep : appendNew kept (x :: xs) =
          appendNew (kept ++ [x]) xs := by
        simp [appendNew, hm]
      rw [hstep] at h
      rcases ih (kept ++ [x]) h with h | h
      · rcases List.mem_append.mp h with h | h
        · exact Or.inl h
        · exact Or.inr ((List.mem_singleton.mp h) ▸ List.mem_cons_self x xs)
      · exact Or.inr (List.mem_cons_of_mem x h)

/-- Helper: the merge-loop fold leaves keys alone that no row maps to. -/
theorem loadChildren_fold_untouched (s : Store) (now : Nat)
    (rows : List ApiNode) (acc : (String → Option UiNode) × List String)
    (x : String)
    (h : ∀ r ∈ rows, (s.realToTemp r.id).getD r.id ≠ x) :
    (rows.foldl (loadChildrenRowStep s now) acc).1 x = acc.1 x := by
  induction rows generalizing acc with
  | nil => rfl
  | cons r rest ih =>
    rw [List.foldl_cons]
    rw [ih _ (fun r2 hr2 => h r2 (List.mem_cons_of_mem r hr2))]
    unfold loadChildrenRowStep
    by_cases ht : isTombstoned s now r.id
    · rw [if_pos ht]
    · rw [if_neg ht]
      exact upd_other _ _ _ _ (fun he =>
        (h r (List.mem_cons_self r rest)) he.symm)

/-- Helper: every collected server-child ui id comes from some row. -/
theorem mem_loadChildren_fold_ids (s : Store) (now : Nat)
    (rows : List ApiNode) (acc : (String → Option UiNode) × List String)
    (y : String)
    (h : y ∈ (rows.foldl (loadChildrenRowStep s now) acc).2) :
    y ∈ acc.2 ∨ ∃ r ∈ rows, y = (s.realToTemp r.id).getD r.id := by
  induction rows generalizing acc with
  | nil => exact Or.inl h
  | cons r rest ih =>
    rw [List.foldl_cons] at h
    rcases ih _ h with h2 | ⟨r2, hr2, he⟩
    · unfold loadChildrenRowStep at h2
      by_cases ht : isTombstoned s now r.id
      · rw [if_pos ht] at h2
        exact Or.inl h2
      · rw [if_neg ht] at h2
        simp only [] at h2
        rcases List.mem_append.mp h2 with h3 | h3
        · exact Or.inl h3
        · exact Or.inr ⟨r, List.mem_cons_self r rest,
            (List.mem_singleton.mp h3)⟩
    · exact Or.inr ⟨r2, List.mem_cons_of_mem r hr2, he⟩

/-- C8 step: the order invariant after `appendChild`'s local insertion. -/
theorem childOrderOk_appendChildLocal (s : Store) (parentId tempId : String)
    (parent : UiNode)
    (hp : s.nodes parentId = some parent)
    (hnd : parent.children.Nodup)
    (hself : parentId ∉ parent.children)
    (htp : tempId ∉ parent.children)
    (hne : parentId ≠ tempId) :
    childOrderOk (appendChildLocal s parentId tempId).nodes parentId := by
  simp only [appendChildLocal, hp, bumpSidebar]
  refine childOrderOk_recomputeD _ _
    { parent with children := parent.children ++ [tempId],
                  hasChildren := some true, isCollapsed := some false }
    (by simp) ?_ ?_
  · refine List.Nodup.append hnd (List.nodup_singleton tempId) ?_
    intro a ha hb
    rw [List.mem_singleton] at hb
    exact htp (hb ▸ ha)
  · intro hm
    rcases List.mem_append.mp hm with hm | hm
    · exact hself hm
    · exact hne (List.mem_singleton.mp hm)

/-- C8 step: the order invariant after `createAfter`'s local insertion. -/
theorem childOrderOk_createAfterLocal (s : Store) (id tempId : String)
    (cur parent : UiNode) (parentId : String)
    (hcur : s.nodes id = some cur)
    (hpar : cur.parentId = some parentId)
    (hpne : parentId ≠ "")
    (hp : s.nodes parentId = some parent)
    (hnd : parent.children.Nodup)
    (hself : parentId ∉ parent.children)
    (htp : tempId ∉ parent.children)
    (hne : parentId ≠ tempId) :
    childOrderOk (createAfterLocal s id tempId).nodes parentId := by
  simp only [createAfterLocal, hcur, hpar, hp, bumpSidebar]
  rw [if_neg hpne]
  refine childOrderOk_recomputeD _ _
    { parent with children := insertAfter parent.children id tempId,
                  hasChildren := some true, isCollapsed := some false }
    (by simp) ?_ ?_
  · exact nodup_insertAfter hnd htp
  · intro hm
    rcases mem_of_mem_insertAfter hm with hm | hm
    · exact hself hm
    · exact hne hm

/-- C8 step: the order invariant after `deleteIfEmpty` removes a node. -/
theorem childOrderOk_deleteIfEmpty (s : Store) (id : String) (now : Nat)
    (node parent : UiNode) (parentId : String)
    (hnode : s.nodes id = some node)
    (hpar : node.parentId = some parentId)
    (hpne : parentId ≠ "")
    (hp : s.nodes parentId = some parent)
    (hempty : normalizeHtmlEmpty node.content = true)
    (hnd : parent.children.Nodup)
    (hself : parentId ∉ parent.children) :
    childOrderOk (deleteIfEmpty s id now).1.nodes parentId := by
  simp only [deleteIfEmpty, hnode, hpar, hp, hempty, Bool.not_true,
    Bool.false_eq_true, if_false, bumpSidebar]
  rw [if_neg hpne]
  refine childOrderOk_recomputeD _ _
    { parent with children := removeFromArray parent.children id,
                  hasChildren :=
                    some (decide (0 < parent.children.length - 1)) }
    (by simp) ?_ ?_
  · exact nodup_removeFromArray id hnd
  · intro hm
    exact hself (mem_of_mem_removeFromArray hm)

/-- The `nextNodes` map built by the `set` block of store.ts `indent`
(before the reindex passes). -/
def indentNextNodes (s : Store) (id oldParentId newParentId : String)
    (node op2 np : UiNode) : String → Option UiNode :=
  upd (upd (upd s.nodes oldParentId
    (some { op2 with
            children := removeFromArray op2.children id,
            hasChildren := some (decide (0 < op2.children.length - 1)) }))
    newParentId
    (some { np with
            children := np.children ++ [id],
            hasChildren := some true,
            isCollapsed := some false }))
    id (some { node with parentId := some newParentId })

/-- C8 step: the order invariant at both affected parents after `indent`'s
local move. -/
theorem childOrderOk_indent (s : Store) (id : String)
    (node op2 np : UiNode) (oldParentId newParentId : String) (idx : Nat)
    (hnode : s.nodes id = some node)
    (hparent : node.parentId = some oldParentId)
    (hop : oldParentId ≠ "")
    (hop2 : s.nodes oldParentId = some op2)
    (hidx : op2.children.findIdx? (· = id) = some idx)
    (hidx0 : idx ≠ 0)
    (hget : op2.children[idx - 1]? = some newParentId)
    (hnp : s.nodes newParentId = some np)
    (hndo : op2.children.Nodup)
    (hselfo : oldParentId ∉ op2.children)
    (hndn : np.children.Nodup)
    (hselfn : newParentId ∉ np.children)
    (hidn : id ∉ np.children)
    (honid : oldParentId ≠ id)
    (honew : oldParentId ≠ newParentId)
    (hnpid : newParentId ≠ id)
    (hcross : ∀ x ∈ np.children, x ∉ op2.children) :
    childOrderOk (indent s id).1.nodes oldParentId ∧
    childOrderOk (indent s id).1.nodes newParentId := by
  have hp1 : ({ s with
        nodes := indentNextNodes s id oldParentId newParentId node op2 np } :
      Store).nodes oldParentId =
      some { op2 with
             children := removeFromArray op2.children id,
             hasChildren := some (decide (0 < op2.children.length - 1)) } := by
    simp [indentNextNodes, upd, honid, honew]
  have hpnew : ({ s with
      nodes := indentNextNodes s id oldParentId newParentId node op2 np } :
      Store).nodes newParentId =
      some { np with
             children := np.children ++ [id],
             hasChildren := some true,
             isCollapsed := some false } := by
    simp [indentNextNodes, upd, hnpid]
  have h1 : childOrderOk (recomputeD { s with
      nodes := indentNextNodes s id oldParentId newParentId node op2 np }
      oldParentId) oldParentId := by
    refine childOrderOk_recomputeD _ _ _ hp1 ?_ ?_
    · exact nodup_removeFromArray id hndo
    · intro hm
      exact hselfo (mem_of_mem_removeFromArray hm)
  have hndnew : (np.children ++ [id]).Nodup := by
    refine List.Nodup.append hndn (List.nodup_singleton id) ?_
    intro a ha hb
    rw [List.mem_singleton] at hb
    exact hidn (hb ▸ ha)
  have hselfnew : newParentId ∉ np.children ++ [id] := by
    intro hm
    rcases List.mem_append.mp hm with hm | hm
    · exact hselfn hm
    · exact hnpid (List.mem_singleton.mp hm)
  have h2 : childOrderOk (recomputeD { s with
      nodes := recomputeD { s with
        nodes := indentNextNodes s id oldParentId newParentId node op2 np }
        oldParentId }
      newParentId) newParentId := by
    obtain ⟨q, hq, hqch⟩ : ∃ q,
        (recomputeD { s with
          nodes := indentNextNodes s id oldParentId newParentId node op2 np }
          oldParentId) newParentId = some q ∧
        q.children = np.children ++ [id] := by
      have hmap := recomputeD_map_children { s with
        nodes := indentNextNodes s id oldParentId newParentId node op2 np }
        oldParentId newParentId
      rw [hpnew] at hmap
      cases hr : (recomputeD { s with
          nodes := indentNextNodes s id oldParentId newParentId node op2 np }
          oldParentId) newParentId with
      | none => rw [hr] at hmap; cases hmap
      | some q =>
        rw [hr] at hmap
        refine ⟨q, rfl, ?_⟩
        simpa using hmap
    refine childOrderOk_recomputeD _ _ q hq ?_ ?_
    · rw [hqch]
      exact hndnew
    · rw [hqch]
      exact hselfnew
  have h3 : childOrderOk (recomputeD { s with
      nodes := recomputeD { s with
        nodes := indentNextNodes s id oldParentId newParentId node op2 np }
        oldParentId }
      newParentId) oldParentId := by
    refine childOrderOk_recomputeD_other _ _ _ h1 honew ?_
    intro p q hpA hqA x hxq
    have hpA2 : (recomputeD { s with
        nodes := indentNextNodes s id oldParentId newParentId node op2 np }
        oldParentId) oldParentId = some p := hpA
    have hqA2 : (recomputeD { s with
        nodes := indentNextNodes s id oldParentId newParentId node op2 np }
        oldParentId) newParentId = some q := hqA
    have hmapo := recomputeD_map_children { s with
      nodes := indentNextNodes s id oldParentId newParentId node op2 np }
      oldParentId oldParentId
    rw [hp1, hpA2] at hmapo
    have hpch : p.children = removeFromArray op2.children id := by
      simpa using hmapo
    have hmapn := recomputeD_map_children { s with
      nodes := indentNextNodes s id oldParentId newParentId node op2 np }
      oldParentId newParentId
    rw [hpnew, hqA2] at hmapn
    have hqch : q.children = np.children ++ [id] := by
      simpa using hmapn
    rw [hqch] at hxq
    rw [hpch]
    rcases List.mem_append.mp hxq with hx | hx
    · intro hmem
      exact (hcross x hx) (mem_of_mem_removeFromArray hmem)
    · rw [List.mem_singleton] at hx
      subst hx
      exact not_mem_removeFromArray_self hndo
  have hform : (indent s id).1.nodes = recomputeD { s with
      nodes := recomputeD { s with
        nodes := indentNextNodes s id oldParentId newParentId node op2 np }
        oldParentId }
      newParentId := by
    simp only [indent, hnode, hparent, hop2, hidx, List.get?_eq_getElem?,
      hget, hnp]
    rw [if_neg hop, if_neg hidx0]
    split_ifs <;> simp [bumpSidebar, indentNextNodes]
  rw [hform]
  exact ⟨h3, h2⟩

/-- The `nextNodes` map built by the `set` block of store.ts `outdent`
(before the reindex passes). -/
def outdentNextNodes (s : Store) (id parentId grandParentId : String)
    (node parent grand : UiNode) : String → Option UiNode :=
  upd (upd (upd s.nodes parentId
    (some { parent with
            children := removeFromArray parent.children id,
            hasChildren := some (decide (0 < parent.children.length - 1)) }))
    grandParentId
    (some { grand with
            children := insertAfter grand.children parentId id,
            hasChildren := some true,
            isCollapsed := some false }))
    id (some { node with parentId := some grandParentId })

/-- C8 step: the order invariant at both affected parents after
`outdent`'s local move. -/
theorem childOrderOk_outdent (s : Store) (id : String)
    (node parent grand : UiNode) (parentId grandParentId : String)
    (hnode : s.nodes id = some node)
    (hpar : node.parentId = some parentId)
    (hpne : parentId ≠ "")
    (hp : s.nodes parentId = some parent)
    (hgp : parent.parentId = some grandParentId)
    (hgpne : grandParentId ≠ "")
    (hg : s.nodes grandParentId = some grand)
    (hndp : parent.children.Nodup)
    (hselfp : parentId ∉ parent.children)
    (hndg : grand.children.Nodup)
    (hselfg : grandParentId ∉ grand.children)
    (hidg : id ∉ grand.children)
    (hpid : parentId ≠ id)
    (hpg : parentId ≠ grandParentId)
    (hgid : grandParentId ≠ id)
    (hcross : ∀ x ∈ grand.children, x ∉ parent.children) :
    childOrderOk (outdent s id).1.nodes parentId ∧
    childOrderOk (outdent s id).1.nodes grandParentId := by
  have hp1 : ({ s with
        nodes := outdentNextNodes s id parentId grandParentId node parent
          grand } : Store).nodes parentId =
      some { parent with
             children := removeFromArray parent.children id,
             hasChildren :=
               some (decide (0 < parent.children.length - 1)) } := by
    simp [outdentNextNodes, upd, hpid, hpg]
  have hpnew : ({ s with
        nodes := outdentNextNodes s id parentId grandParentId node parent
          grand } : Store).nodes grandParentId =
      some { grand with
             children := insertAfter grand.children parentId id,
             hasChildren := some true,
             isCollapsed := some false } := by
    simp [outdentNextNodes, upd, hgid]
  have h1 : childOrderOk (recomputeD { s with
      nodes := outdentNextNodes s id parentId grandParentId node parent
        grand }
      parentId) parentId := by
    refine childOrderOk_recomputeD _ _ _ hp1 ?_ ?_
    · exact nodup_removeFromArray id hndp
    · intro hm
      exact hselfp (mem_of_mem_removeFromArray hm)
  have hndnew : (insertAfter grand.children parentId id).Nodup :=
    nodup_insertAfter hndg hidg
  have hselfnew : grandParentId ∉ insertAfter grand.children parentId id := by
    intro hm
    rcases mem_of_mem_insertAfter hm with hm | hm
    · exact hselfg hm
    · exact hgid hm
  have h2 : childOrderOk (recomputeD { s with
      nodes := recomputeD { s with
        nodes := outdentNextNodes s id parentId grandParentId node parent
          grand }
        parentId }
      grandParentId) grandParentId := by
    obtain ⟨q, hq, hqch⟩ : ∃ q,
        (recomputeD { s with
          nodes := outdentNextNodes s id parentId grandParentId node parent
            grand }
          parentId) grandParentId = some q ∧
        q.children = insertAfter grand.children parentId id := by
      have hmap := recomputeD_map_children { s with
        nodes := outdentNextNodes s id parentId grandParentId node parent
          grand }
        parentId grandParentId
      rw [hpnew] at hmap
      cases hr : (recomputeD { s with
          nodes := outdentNextNodes s id parentId grandParentId node parent
            grand }
          parentId) grandParentId with
      | none => rw [hr] at hmap; cases hmap
      | some q =>
        rw [hr] at hmap
        refine ⟨q, rfl, ?_⟩
        simpa using hmap
    refine childOrderOk_recomputeD _ _ q hq ?_ ?_
    · rw [hqch]
      exact hndnew
    · rw [hqch]
      exact hselfnew
  have h3 : childOrderOk (recomputeD { s with
      nodes := recomputeD { s with
        nodes := outdentNextNodes s id parentId grandParentId node parent
          grand }
        parentId }
      grandParentId) parentId := by
    refine childOrderOk_recomputeD_other _ _ _ h1 hpg ?_
    intro p q hpA hqA x hxq
    have hpA2 : (recomputeD { s with
        nodes := outdentNextNodes s id parentId grandParentId node parent
          grand }
        parentId) parentId = some p := hpA
    have hqA2 : (recomputeD { s with
        nodes := outdentNextNodes s id parentId grandParentId node parent
          grand }
        parentId) grandParentId = some q := hqA
    have hmapo := recomputeD_map_children { s with
      nodes := outdentNextNodes s id parentId grandParentId node parent
        grand }
      parentId parentId
    rw [hp1, hpA2] at hmapo
    have hpch : p.children = removeFromArray parent.children id := by
      simpa using hmapo
    have hmapn := recomputeD_map_children { s with
      nodes := outdentNextNodes s id parentId grandParentId node parent
        grand }
      parentId grandParentId
    rw [hpnew, hqA2] at hmapn
    have hqch : q.children = insertAfter grand.children parentId id := by
      simpa using hmapn
    rw [hqch] at hxq
    rw [hpch]
    rcases mem_of_mem_insertAfter hxq with hx | hx
    · intro hmem
      exact (hcross x hx) (mem_of_mem_removeFromArray hmem)
    · subst hx
      exact not_mem_removeFromArray_self hndp
  have hform : (outdent s id).1.nodes = recomputeD { s with
      nodes := recomputeD { s with
        nodes := outdentNextNodes s id parentId grandParentId node parent
          grand }
        parentId }
      grandParentId := by
    simp only [outdent, hnode, hpar, hp, hgp, hg]
    rw [if_neg hpne, if_neg hgpne]
    split_ifs <;> simp [bumpSidebar, outdentNextNodes, hgp]
  rw [hform]
  exact ⟨h3, h2⟩

/-- Helper: the merged children list is duplicate-free and never contains
the parent itself, as long as the parent's local children were. -/
theorem merged_nodup_and_self (S2 : Store) (uiParentId : String)
    (ids : List String)
    (hnd : ∀ p, S2.nodes uiParentId = some p →
      p.children.Nodup ∧ uiParentId ∉ p.children)
    (hids : uiParentId ∉ ids) :
    (mergeChildrenPreserveLocal S2 uiParentId ids).Nodup ∧
    uiParentId ∉ mergeChildrenPreserveLocal S2 uiParentId ids := by
  unfold mergeChildrenPreserveLocal
  cases hpn : S2.nodes uiParentId with
  | none =>
    simp only [hpn, Option.map_none', Option.getD_none, List.filter_nil]
    constructor
    · exact appendNew_nodup ids [] (List.nodup_nil)
    · intro hm
      rcases mem_appendNew ids [] uiParentId hm with h | h
      · cases h
      · exact hids h
  | some p =>
    obtain ⟨hpnd, hpself⟩ := hnd p hpn
    simp only [hpn, Option.map_some', Option.getD_some]
    constructor
    · exact appendNew_nodup ids _ ((hpnd.filter _).filter _)
    · intro hm
      rcases mem_appendNew ids _ uiParentId hm with h | h
      · exact hpself (List.mem_of_mem_filter (List.mem_of_mem_filter h))
      · exact hids h

/-- C8 step: the order invariant at the reconciled parent after a
`loadChildren` merge. -/
theorem childOrderOk_loadChildrenMerge (s : Store) (uiParentId : String)
    (rows : List ApiNode) (now : Nat)
    (hpp : ∀ p, s.nodes uiParentId = some p →
      p.children.Nodup ∧ uiParentId ∉ p.children)
    (hrows : ∀ r ∈ rows, (s.realToTemp r.id).getD r.id ≠ uiParentId) :
    childOrderOk (loadChildrenMerge s uiParentId rows now).nodes
      uiParentId := by
  have hunt : (rows.foldl (loadChildrenRowStep s now) (s.nodes, [])).1
      uiParentId = s.nodes uiParentId :=
    loadChildren_fold_untouched s now rows _ uiParentId hrows
  have hids : uiParentId ∉
      (rows.foldl (loadChildrenRowStep s now) (s.nodes, [])).2 := by
    intro hm
    rcases mem_loadChildren_fold_ids s now rows _ uiParentId hm with
      h | ⟨r, hr, he⟩
    · cases h
    · exact (hrows r hr) he.symm
  have hnd2 : ∀ p, ({ s with
      nodes := (rows.foldl (loadChildrenRowStep s now) (s.nodes, [])).1 } :
      Store).nodes uiParentId = some p →
      p.children.Nodup ∧ uiParentId ∉ p.children := by
    intro p hp2
    have hp3 : (rows.foldl (loadChildrenRowStep s now) (s.nodes, [])).1
        uiParentId = some p := hp2
    rw [hunt] at hp3
    exact hpp p hp3
  obtain ⟨hmn, hms⟩ := merged_nodup_and_self
    { s with
      nodes := (rows.foldl (loadChildrenRowStep s now) (s.nodes, [])).1 }
    uiParentId
    (rows.foldl (loadChildrenRowStep s now) (s.nodes, [])).2 hnd2 hids
  exact childOrderOk_recomputeD _ _ _ (upd_same _ _ _) hmn hms

/-- C8: after every structural mutation — createChild (`appendChild`),
`createAfter`, `deleteIfEmpty`, `indent`, `outdent` (both affected
parents), and reconciliation via `loadChildren` — the `orderIndex` of
every child of each affected parent equals its index in that parent's
`children` array (on well-formed inputs: duplicate-free children, no
parent among its own children). -/
theorem orderIndex_recomputed_invariant :
    (∀ (s : Store) (parentId tempId : String) (parent : UiNode),
      s.nodes parentId = some parent → parent.children.Nodup →
      parentId ∉ parent.children → tempId ∉ parent.children →
      parentId ≠ tempId →
      childOrderOk (appendChildLocal s parentId tempId).nodes parentId) ∧
    (∀ (s : Store) (id tempId : String) (cur parent : UiNode)
        (parentId : String),
      s.nodes id = some cur → cur.parentId = some parentId →
      parentId ≠ "" → s.nodes parentId = some parent →
      parent.children.Nodup → parentId ∉ parent.children →
      tempId ∉ parent.children → parentId ≠ tempId →
      childOrderOk (createAfterLocal s id tempId).nodes parentId) ∧
    (∀ (s : Store) (id : String) (now : Nat) (node parent : UiNode)
        (parentId : String),
      s.nodes id = some node → node.parentId = some parentId →
      parentId ≠ "" → s.nodes parentId = some parent →
      normalizeHtmlEmpty node.content = true → parent.children.Nodup →
      parentId ∉ parent.children →
      childOrderOk (deleteIfEmpty s id now).1.nodes parentId) ∧
    (∀ (s : Store) (id : String) (node op2 np : UiNode)
        (oldParentId newParentId : String) (idx : Nat),
      s.nodes id = some node → node.parentId = some oldParentId →
      oldParentId ≠ "" → s.nodes oldParentId = some op2 →
      op2.children.findIdx? (· = id) = some idx → idx ≠ 0 →
      op2.children[idx - 1]? = some newParentId →
      s.nodes newParentId = some np → op2.children.Nodup →
      oldParentId ∉ op2.children → np.children.Nodup →
      newParentId ∉ np.children → id ∉ np.children → oldParentId ≠ id →
      oldParentId ≠ newParentId → newParentId ≠ id →
      (∀ x ∈ np.children, x ∉ op2.children) →
      childOrderOk (indent s id).1.nodes oldParentId ∧
      childOrderOk (indent s id).1.nodes newParentId) ∧
    (∀ (s : Store) (id : String) (node parent grand : UiNode)
        (parentId grandParentId : String),
      s.nodes id = some node → node.parentId = some parentId →
      parentId ≠ "" → s.nodes parentId = some parent →
      parent.parentId = some grandParentId → grandParentId ≠ "" →
      s.nodes grandParentId = some grand → parent.children.Nodup →
      parentId ∉ parent.children → grand.children.Nodup →
      grandParentId ∉ grand.children → id ∉ grand.children →
      parentId ≠ id → parentId ≠ grandParentId → grandParentId ≠ id →
      (∀ x ∈ grand.children, x ∉ parent.children) →
      childOrderOk (outdent s id).1.nodes parentId ∧
      childOrderOk (outdent s id).1.nodes grandParentId) ∧
    (∀ (s : Store) (uiParentId : String) (rows : List ApiNode) (now : Nat),
      (∀ p, s.nodes uiParentId = some p →
        p.children.Nodup ∧ uiParentId ∉ p.children) →
      (∀ r ∈ rows, (s.realToTemp r.id).getD r.id ≠ uiParentId) →
      childOrderOk (loadChildrenMerge s uiParentId rows now).nodes
        uiParentId) :=
  ⟨childOrderOk_appendChildLocal, childOrderOk_createAfterLocal,
    childOrderOk_deleteIfEmpty, childOrderOk_indent, childOrderOk_outdent,
    childOrderOk_loadChildrenMerge⟩

/-- C8 witness: the invariant instantiated on the concrete outline `sQ7`
for each of the six mutations. -/
theorem orderIndex_recomputed_invariant_witness :
    childOrderOk (appendChildLocal sQ7 "P" "tmp_n").nodes "P" ∧
    childOrderOk (createAfterLocal sQ7 "y" "tmp_n").nodes "P" ∧
    childOrderOk (deleteIfEmpty sQ7 "tmp_q" 0).1.nodes "P" ∧
    childOrderOk (indent sQ7 "tmp_q").1.nodes "P" ∧
    childOrderOk (indent sQ7 "tmp_q").1.nodes "y" ∧
    childOrderOk (outdent sQ7 "c").1.nodes "y" ∧
    childOrderOk (outdent sQ7 "c").1.nodes "P" ∧
    childOrderOk
      (loadChildrenMerge sQ7 "P" [⟨"z", some "P", some "zz", some 0, none⟩]
        0).nodes "P" := by
  have hP : sQ7.nodes "P" = some (mkNode "P" none "root" ["y", "tmp_q"]
      none) := by decide
  have h1 := orderIndex_recomputed_invariant.1 sQ7 "P" "tmp_n"
    (mkNode "P" none "root" ["y", "tmp_q"] none)
    (by decide) (by decide) (by decide) (by decide) (by decide)
  have h2 := orderIndex_recomputed_invariant.2.1 sQ7 "y" "tmp_n"
    (mkNode "y" (some "P") "y" ["c"] none)
    (mkNode "P" none "root" ["y", "tmp_q"] none) "P"
    (by decide) (by decide) (by decide) (by decide) (by decide) (by decide)
    (by decide) (by decide)
  have h3 := orderIndex_recomputed_invariant.2.2.1 sQ7 "tmp_q" 0
    (mkNode "tmp_q" (some "P") "" [] none)
    (mkNode "P" none "root" ["y", "tmp_q"] none) "P"
    (by decide) (by decide) (by decide) (by decide) (by decide) (by decide)
    (by decide)
  have h4 := orderIndex_recomputed_invariant.2.2.2.1 sQ7 "tmp_q"
    (mkNode "tmp_q" (some "P") "" [] none)
    (mkNode "P" none "root" ["y", "tmp_q"] none)
    (mkNode "y" (some "P") "y" ["c"] none) "P" "y" 1
    (by decide) (by decide) (by decide) (by decide) (by decide) (by decide)
    (by decide) (by decide) (by decide) (by decide) (by decide) (by decide)
    (by decide) (by decide) (by decide) (by decide) (by decide)
  have h5 := orderIndex_recomputed_invariant.2.2.2.2.1 sQ7 "c"
    (mkNode "c" (some "y") "c" [] none)
    (mkNode "y" (some "P") "y" ["c"] none)
    (mkNode "P" none "root" ["y", "tmp_q"] none) "y" "P"
    (by decide) (by decide) (by decide) (by decide) (by decide) (by decide)
    (by decide) (by decide) (by decide) (by decide) (by decide) (by decide)
    (by decide) (by decide) (by decide) (by decide)
  have h6 := orderIndex_recomputed_invariant.2.2.2.2.2 sQ7 "P"
    [⟨"z", some "P", some "zz", some 0, none⟩] 0
    (by
      intro p hp
      rw [hP] at hp
      injection hp with h
      subst h
      exact ⟨by decide, by decide⟩)
    (by decide)
  exact ⟨h1, h2, h3, h4.1, h4.2, h5.1, h5.2, h6⟩
